import Mathlib

/-!
Verification development for the agent-cli multi-agent coordinator.

This file gives a shallow embedding, in Lean 4, of the coordinator core of
the repository:

* `src/dist/server/LockManager.js` — lease-based file locks,
* `src/dist/server/TaskServer.js` — agent registry, task lifecycle, queue,
  heartbeat watchdog, message dispatch.

Conventions of the embedding:

* JavaScript `Map` objects and plain objects used as string-keyed maps are
  modelled as association lists (`List (String × α)`, resp. `List FileLock`
  keyed by `FileLock.path`) with JavaScript `Map` insertion-order semantics:
  setting an existing key replaces in place, setting a fresh key appends,
  deleting removes the (first) entry with that key.
* `Date.now()` is modelled by an explicit `now : Nat` argument; every
  occurrence of `Date.now()` inside one operation is the same `now`.
* Filesystem effects (persisting `active.json`, writing message files,
  creating directories, console logging) and event emission do not touch the
  in-memory coordinator state and are outside the model; only the in-memory
  state transition of each operation is embedded.
* Fresh identifiers produced by `generateTaskId()` are passed in as an
  explicit argument.
* `TaskResult` payloads are treated as opaque values (`String`).
-/

namespace AgentCLI

/-! ### String-keyed maps (JavaScript objects and Maps) -/

/-- Lookup in a string-keyed association list (JS `obj[k]` / `map.get(k)`). -/
def dget : List (String × α) → String → Option α
  | [], _ => none
  | p :: ps, k => if p.1 == k then some p.2 else dget ps k

/-- Write to a string-keyed association list (JS `obj[k] = v` /
`map.set(k, v)`): replace the entry in place when the key is present (keys
are unique in a JS map, so replacing the first occurrence is the map
semantics), append otherwise. -/
def dset : List (String × α) → String → α → List (String × α)
  | [], k, v => [(k, v)]
  | p :: ps, k, v => if p.1 == k then (k, v) :: ps else p :: dset ps k v

/-- Delete from a string-keyed association list (JS `delete obj[k]` /
`map.delete(k)`). -/
def ddel : List (String × α) → String → List (String × α)
  | [], _ => []
  | p :: ps, k => if p.1 == k then ps else p :: ddel ps k

/-! ### Lock manager data model (`src/dist/server/LockManager.js`,
`src/src/shared/types.ts`) -/

/-- The lock type of `FileLock.lockType`: `'read' | 'write' | 'exclusive'`. -/
inductive LockType where
  | read
  | write
  | exclusive
deriving DecidableEq, Repr

/-- A file lock record (interface `FileLock`). -/
structure FileLock where
  path : String
  agentId : String
  taskId : String
  lockedAt : Nat
  expiresAt : Nat
  lockType : LockType
deriving DecidableEq, Repr

/-- A lock acquisition request (interface `LockRequest`). -/
structure LockRequest where
  agentId : String
  taskId : String
  paths : List String
  lockType : LockType
  timeoutMs : Option Nat := none
deriving DecidableEq, Repr

/-- A conflict descriptor, element of `LockResult.conflicts`. -/
structure LockConflict where
  path : String
  heldBy : String
deriving DecidableEq, Repr

/-- The result of `acquireLocks` (interface `LockResult`). The source leaves
`conflicts` `undefined` when the list is empty; we model it as the empty
list. -/
structure LockResult where
  success : Bool
  acquired : List String
  failed : List String
  conflicts : List LockConflict
deriving DecidableEq, Repr

/-- The in-memory state of a `LockManager`: the lock table (a JS `Map` keyed
by normalized path, modelled as a list keyed by `FileLock.path`), the project
root used by path normalization, and the default lease length. -/
structure LockManager where
  locks : List FileLock
  projectPath : String
  defaultTimeout : Nat
deriving DecidableEq, Repr

/-- Lookup of the lock table by normalized path (JS `this.locks.get(k)`). -/
def lockGet : List FileLock → String → Option FileLock
  | [], _ => none
  | l :: ls, k => if l.path == k then some l else lockGet ls k

/-- Write to the lock table (JS `this.locks.set(k, lock)`), with `Map`
insertion-order semantics: replace the entry with that key in place, append
when the key is fresh. -/
def lockSet : List FileLock → FileLock → List FileLock
  | [], l => [l]
  | x :: xs, l => if x.path == l.path then l :: xs else x :: lockSet xs l

/-- Delete from the lock table (JS `this.locks.delete(k)`). -/
def lockDel : List FileLock → String → List FileLock
  | [], _ => []
  | x :: xs, k => if x.path == k then xs else x :: lockDel xs k

/-- Model of Node `path.isAbsolute` for POSIX paths: the path starts with a
slash. (Stated on the character list so that it evaluates by kernel
reduction.) -/
def isAbsolutePath (s : String) : Bool :=
  match s.data with
  | [] => false
  | c :: _ => c == '/'

/-- Path split into non-empty segments, used by the model of
`path.relative`. -/
def pathSegs (s : String) : List String :=
  (s.splitOn "/").filter (fun seg => seg != "")

/-- Drop the longest common prefix of two segment lists. -/
def dropCommon : List String → List String → (List String × List String)
  | a :: as, b :: bs => if a == b then dropCommon as bs else (a :: as, b :: bs)
  | as, bs => (as, bs)

/-- Model of Node `path.relative(fromPath, toPath)` for clean absolute POSIX
paths: drop the common segment prefix, then go up once per remaining
`fromPath` segment and down the remaining `toPath` segments. -/
def pathRelative (fromPath toPath : String) : String :=
  let (fr, tr) := dropCommon (pathSegs fromPath) (pathSegs toPath)
  String.intercalate "/" (fr.map (fun _ => "..") ++ tr)

/-- `LockManager.normalizePath`: absolute paths are made relative to the
project root, others are left as given. -/
def normalizePath (projectPath filePath : String) : String :=
  if isAbsolutePath filePath then pathRelative projectPath filePath
  else filePath

/-- `LockManager.isCompatibleLock`: only read/read is compatible. -/
def isCompatibleLock (existing requested : LockType) : Bool :=
  existing == LockType.read && requested == LockType.read

/-- `LockManager.cleanExpiredLocks` on the lock table: the source deletes an
entry when `now > lock.expiresAt`, i.e. keeps it when `now ≤ expiresAt`. -/
def cleanExpiredLocks (now : Nat) (locks : List FileLock) : List FileLock :=
  locks.filter (fun l => decide (now ≤ l.expiresAt))

/-- JavaScript `request.timeoutMs || defaultTimeout`: `undefined` and the
falsy number `0` both select the default. -/
def jsOrTimeout (timeoutMs : Option Nat) (deflt : Nat) : Nat :=
  match timeoutMs with
  | some t => if t == 0 then deflt else t
  | none => deflt

/-- The fresh lock record installed by `acquireLocks` for normalized path
`k`. -/
def freshLock (now deflt : Nat) (req : LockRequest) (k : String) : FileLock :=
  { path := k
    agentId := req.agentId
    taskId := req.taskId
    lockedAt := now
    expiresAt := now + jsOrTimeout req.timeoutMs deflt
    lockType := req.lockType }

/-- The per-path loop of `acquireLocks`, returning
(acquired, failed, conflicts, final lock table). -/
def acquireLoop (now deflt : Nat) (pp : String) (req : LockRequest) :
    List String → List FileLock →
    (List String × List String × List LockConflict × List FileLock)
  | [], locks => ([], [], [], locks)
  | p :: rest, locks =>
    let k := normalizePath pp p
    match lockGet locks k with
    | some el =>
      if el.agentId != req.agentId &&
          !(isCompatibleLock el.lockType req.lockType) then
        let r := acquireLoop now deflt pp req rest locks
        (r.1, p :: r.2.1, ⟨p, el.agentId⟩ :: r.2.2.1, r.2.2.2)
      else
        let r :=
          acquireLoop now deflt pp req rest
            (lockSet locks (freshLock now deflt req k))
        (p :: r.1, r.2.1, r.2.2.1, r.2.2.2)
    | none =>
      let r :=
        acquireLoop now deflt pp req rest
          (lockSet locks (freshLock now deflt req k))
      (p :: r.1, r.2.1, r.2.2.1, r.2.2.2)

/-- `LockManager.acquireLocks`: sweep expired locks, then try each requested
path in order; return the `LockResult` and the new manager state. -/
def acquireLocks (now : Nat) (lm : LockManager) (req : LockRequest) :
    LockResult × LockManager :=
  let locks0 := cleanExpiredLocks now lm.locks
  let r := acquireLoop now lm.defaultTimeout lm.projectPath req req.paths locks0
  (⟨r.2.1.isEmpty, r.1, r.2.1, r.2.2.1⟩, { lm with locks := r.2.2.2 })

/-- The per-path loop of `releaseLocks`, returning (released, final table). -/
def releaseLoop (pp agentId : String) :
    List String → List FileLock → (List String × List FileLock)
  | [], locks => ([], locks)
  | p :: rest, locks =>
    let k := normalizePath pp p
    match lockGet locks k with
    | some l =>
      if l.agentId == agentId then
        let r := releaseLoop pp agentId rest (lockDel locks k)
        (p :: r.1, r.2)
      else
        releaseLoop pp agentId rest locks
    | none => releaseLoop pp agentId rest locks

/-- `LockManager.releaseLocks`: release only locks on the given paths that
are owned by the given agent. -/
def releaseLocks (lm : LockManager) (agentId : String) (paths : List String) :
    List String × LockManager :=
  let r := releaseLoop lm.projectPath agentId paths lm.locks
  (r.1, { lm with locks := r.2 })

/-- `LockManager.releaseAllLocks`: drop every lock owned by the agent. -/
def releaseAllLocks (lm : LockManager) (agentId : String) : LockManager :=
  { lm with locks := lm.locks.filter (fun l => !(l.agentId == agentId)) }

/-- `LockManager.releaseTaskLocks`: drop every lock held for the task. -/
def releaseTaskLocks (lm : LockManager) (taskId : String) : LockManager :=
  { lm with locks := lm.locks.filter (fun l => !(l.taskId == taskId)) }

/-- `LockManager.isLocked`: look the path up; an entry with
`now > expiresAt` is deleted on the spot and reported unlocked. -/
def isLocked (now : Nat) (lm : LockManager) (filePath : String) :
    Bool × LockManager :=
  let k := normalizePath lm.projectPath filePath
  match lockGet lm.locks k with
  | none => (false, lm)
  | some l =>
    if now > l.expiresAt then
      (false, { lm with locks := lockDel lm.locks k })
    else
      (true, lm)

/-- `LockManager.getAllLocks`: sweep expired locks and return the rest. -/
def getAllLocks (now : Nat) (lm : LockManager) :
    List FileLock × LockManager :=
  let ls := cleanExpiredLocks now lm.locks
  (ls, { lm with locks := ls })

/-- The conflict scan of `checkConflicts`, over an already swept table. -/
def conflictScan (pp agentId : String) (paths : List String)
    (locks : List FileLock) : List LockConflict :=
  paths.filterMap (fun p =>
    match lockGet locks (normalizePath pp p) with
    | some l => if l.agentId != agentId then some ⟨p, l.agentId⟩ else none
    | none => none)

/-- `LockManager.checkConflicts`: sweep expired locks, then report each
requested path that is locked by a different agent. -/
def checkConflicts (now : Nat) (lm : LockManager) (agentId : String)
    (paths : List String) : List LockConflict × LockManager :=
  let ls := cleanExpiredLocks now lm.locks
  (conflictScan lm.projectPath agentId paths ls, { lm with locks := ls })

/-! ### Task server data model (`src/dist/server/TaskServer.js`,
`src/src/shared/types.ts`) -/

/-- Task statuses (`TaskStatus`). -/
inductive TaskStatus where
  | pending
  | assigned
  | in_progress
  | completed
  | failed
  | cancelled
deriving DecidableEq, Repr

/-- Agent statuses (`AgentStatus`). -/
inductive AgentStatus where
  | idle
  | working
  | blocked
  | error
  | offline
deriving DecidableEq, Repr

/-- Task priorities (`TaskPriority`). -/
inductive Priority where
  | critical
  | high
  | normal
  | low
deriving DecidableEq, Repr

/-- A task record (interface `Task`). `metadata`, `context` and
`targetDirectories` never influence the coordinator transitions and are
omitted; optional fields are `Option`s with `none` for an absent field. -/
structure Task where
  id : String
  title : String
  description : String
  priority : Priority
  status : TaskStatus
  assignedAgent : Option String
  assignedAt : Option Nat
  createdAt : Nat
  startedAt : Option Nat
  completedAt : Option Nat
  actualMinutes : Option Nat
  attempts : Nat
  maxAttempts : Nat
  targetFiles : Option (List String)
  dependsOn : Option (List String)
  blockedBy : Option (List String)
  branch : Option String
  baseBranch : Option String
  result : Option String
  error : Option String
  tags : Option (List String)
deriving DecidableEq, Repr

/-- An agent record (interface `AgentInfo`); `metadata` omitted. -/
structure Agent where
  id : String
  name : String
  status : AgentStatus
  currentTask : Option String
  workingBranch : Option String
  workingDirectory : String
  startedAt : Nat
  lastHeartbeat : Nat
  completedTasks : Nat
  failedTasks : Nat
  capabilities : List String
deriving DecidableEq, Repr

/-- The coordinator configuration fields that the embedded operations
consult (`ServerConfig`): defaults are `heartbeatTimeout = 30000`,
`gitIntegration = true`, branch name prefix `"agent/"`,
`lockTimeout = 300000` (held in `LockManager.defaultTimeout`). -/
structure Config where
  heartbeatTimeout : Nat
  gitIntegration : Bool
  branchPfx : String
deriving DecidableEq, Repr

/-- The in-memory coordinator state: the `ServerState` fields mutated by the
operations (`agents`, `tasks`, `taskQueue`, `completedTasks`) together with
the `LockManager` and the effective config. The unused legacy
`ServerState.locks` object, `version`, `startedAt` and `projectPath` are
omitted. -/
structure Server where
  agents : List (String × Agent)
  tasks : List (String × Task)
  taskQueue : List String
  completedTasks : List String
  lockManager : LockManager
  config : Config
deriving DecidableEq, Repr

/-! ### Task server operations -/

/-- Options accepted by `createTask` (`CreateTaskOptions`). -/
structure CreateTaskOptions where
  title : String
  description : Option String := none
  priority : Option Priority := none
  files : Option (List String) := none
  dependsOn : Option (List String) := none
  tags : Option (List String) := none
deriving DecidableEq, Repr

/-- `TaskServer.registerAgent`: install a fresh idle agent record under the
given id (replacing any previous record with that id). Directory creation
and the emitted event are outside the model. -/
def registerAgent (now : Nat) (srv : Server) (agentId : String)
    (name : Option String) (workingDirectory : Option String)
    (capabilities : Option (List String)) : Server :=
  let agent : Agent :=
    { id := agentId
      name := name.getD agentId
      status := AgentStatus.idle
      currentTask := none
      workingBranch := none
      workingDirectory := workingDirectory.getD ""
      startedAt := now
      lastHeartbeat := now
      completedTasks := 0
      failedTasks := 0
      capabilities := capabilities.getD [] }
  { srv with agents := dset srv.agents agentId agent }

/-- The blocker filter of `createTask` and `assignTask`: a dependency id
blocks exactly when it refers to an existing task that is not completed
(`dep && dep.status !== 'completed'`). -/
def blockerFilter (tasks : List (String × Task)) (deps : List String) :
    List String :=
  deps.filter (fun depId =>
    match dget tasks depId with
    | some dep => decide (dep.status ≠ TaskStatus.completed)
    | none => false)

/-- `TaskServer.createTask`: build a pending task, record blockers, append
the task to `tasks` and its id to the back of `taskQueue`. The generated
`taskId` is passed explicitly. -/
def createTask (now : Nat) (srv : Server) (taskId : String)
    (options : CreateTaskOptions) : Server × Task :=
  let task0 : Task :=
    { id := taskId
      title := options.title
      description := options.description.getD ""
      priority := options.priority.getD Priority.normal
      status := TaskStatus.pending
      assignedAgent := none
      assignedAt := none
      createdAt := now
      startedAt := none
      completedAt := none
      actualMinutes := none
      attempts := 0
      maxAttempts := 3
      targetFiles := options.files
      dependsOn := options.dependsOn
      blockedBy := none
      branch := none
      baseBranch := none
      result := none
      error := none
      tags := options.tags }
  let task :=
    match options.dependsOn with
    | some deps =>
      let blockers := blockerFilter srv.tasks deps
      if blockers.length > 0 then { task0 with blockedBy := some blockers }
      else task0
    | none => task0
  ({ srv with
      tasks := dset srv.tasks taskId task
      taskQueue := srv.taskQueue ++ [taskId] }, task)

/-- The successful tail of `assignTask`, after all guards have passed:
mutate the task and agent, drop the task from the queue, and acquire write
locks over its target files (result discarded). `TASK_ASSIGN` delivery is
outside the model. -/
def assignBody (now : Nat) (srv : Server) (taskId agentId : String)
    (task : Task) (agent : Agent) : Option Task × Server :=
  let branch :=
    if srv.config.gitIntegration then
      some (srv.config.branchPfx ++ agentId ++ "/" ++ taskId)
    else task.branch
  let baseBranch :=
    if srv.config.gitIntegration then some "main" else task.baseBranch
  let task1 :=
    { task with
        status := TaskStatus.assigned
        assignedAgent := some agentId
        assignedAt := some now
        attempts := task.attempts + 1
        branch := branch
        baseBranch := baseBranch }
  let agent1 :=
    { agent with
        status := AgentStatus.working
        currentTask := some taskId
        workingBranch := task1.branch }
  let lm1 :=
    match task1.targetFiles with
    | some files =>
      (acquireLocks now srv.lockManager
        { agentId := agentId, taskId := taskId, paths := files,
          lockType := LockType.write }).2
    | none => srv.lockManager
  (some task1,
    { srv with
        tasks := dset srv.tasks taskId task1
        agents := dset srv.agents agentId agent1
        taskQueue := srv.taskQueue.erase taskId
        lockManager := lm1 })

/-- `TaskServer.assignTask`: returns `(null, unchanged-or-partially-mutated
state)` when a guard refuses, and `(the assigned task, new state)` on
success. On the dependency path, when every blocker is completed the task's
`blockedBy` is cleared in place before the file-conflict check runs, so this
mutation survives a subsequent conflict refusal, and the conflict check
itself sweeps expired locks. -/
def assignTask (now : Nat) (srv : Server) (taskId agentId : String) :
    Option Task × Server :=
  match dget srv.tasks taskId, dget srv.agents agentId with
  | some task, some agent =>
    if task.status ≠ TaskStatus.pending then (none, srv)
    else if agent.status ≠ AgentStatus.idle then (none, srv)
    else
      -- dependency gate (only when blockedBy is present and non-empty)
      let bb := task.blockedBy.getD []
      let stillBlocked := blockerFilter srv.tasks bb
      if bb.length > 0 ∧ stillBlocked.length > 0 then (none, srv)
      else
        let task1 :=
          if bb.length > 0 then { task with blockedBy := some [] } else task
        let srv1 :=
          if bb.length > 0 then
            { srv with tasks := dset srv.tasks taskId task1 }
          else srv
        -- file conflict gate
        match task1.targetFiles with
        | some files =>
          let srv2 :=
            { srv1 with
                lockManager :=
                  (checkConflicts now srv1.lockManager agentId files).2 }
          if (checkConflicts now srv1.lockManager agentId files).1.length > 0
          then (none, srv2)
          else assignBody now srv2 taskId agentId task1 agent
        | none => assignBody now srv1 taskId agentId task1 agent
  | _, _ => (none, srv)

/-- `TaskServer.startTask`: the assigned agent marks the task in progress. -/
def startTask (now : Nat) (srv : Server) (taskId agentId : String) : Server :=
  match dget srv.tasks taskId with
  | none => srv
  | some task =>
    if task.assignedAgent ≠ some agentId then srv
    else
      { srv with
          tasks := dset srv.tasks taskId
            { task with
                status := TaskStatus.in_progress
                startedAt := some now } }

/-- `unblockDependentTasks`: remove the completed id from every task's
`blockedBy` (the source removes the first occurrence found by `indexOf`). -/
def unblockDependentTasks (tasks : List (String × Task)) (completedId : String) :
    List (String × Task) :=
  tasks.map (fun p =>
    (p.1, { p.2 with blockedBy := p.2.blockedBy.map (fun l => l.erase completedId) }))

/-- Math.round((completedAt - startedAt) / 60000) for non-negative millis. -/
def roundMinutes (millis : Nat) : Nat := (millis + 30000) / 60000

/-- `TaskServer.completeTask`: guarded only by the task existing and
`task.assignedAgent === agentId`; marks the task completed, releases its
locks, resets the agent to idle, appends to the completed history, and
unblocks dependents. There is no check of the task's current status and no
message-id deduplication. -/
def completeTask (now : Nat) (srv : Server) (taskId agentId : String)
    (result : String) : Server :=
  match dget srv.tasks taskId with
  | none => srv
  | some task =>
    if task.assignedAgent ≠ some agentId then srv
    else
      let task1 :=
        { task with
            status := TaskStatus.completed
            completedAt := some now
            result := some result
            actualMinutes := task.startedAt.map (fun st => roundMinutes (now - st)) }
      let lm1 := releaseTaskLocks srv.lockManager taskId
      let agents1 :=
        match dget srv.agents agentId with
        | some agent =>
          dset srv.agents agentId
            { agent with
                status := AgentStatus.idle
                currentTask := none
                workingBranch := none
                completedTasks := agent.completedTasks + 1 }
        | none => srv.agents
      { srv with
          tasks := unblockDependentTasks (dset srv.tasks taskId task1) taskId
          agents := agents1
          lockManager := lm1
          completedTasks := srv.completedTasks ++ [taskId] }

/-- `TaskServer.failTask`: guarded only by the task existing and
`task.assignedAgent === agentId`; releases the task's locks, then either
retries (status back to `pending`, id to the front of the queue) when
`attempts < maxAttempts`, or goes terminal `failed`; either way the agent is
reset to idle with `failedTasks` incremented. -/
def failTask (now : Nat) (srv : Server) (taskId agentId : String)
    (error : String) : Server :=
  match dget srv.tasks taskId with
  | none => srv
  | some task =>
    if task.assignedAgent ≠ some agentId then srv
    else
      let lm1 := releaseTaskLocks srv.lockManager taskId
      let task1 :=
        if task.attempts < task.maxAttempts then
          { task with
              status := TaskStatus.pending
              assignedAgent := none
              assignedAt := none
              error := some error }
        else
          { task with
              status := TaskStatus.failed
              completedAt := some now
              error := some error }
      let queue1 :=
        if task.attempts < task.maxAttempts then taskId :: srv.taskQueue
        else srv.taskQueue
      let agents1 :=
        match dget srv.agents agentId with
        | some agent =>
          dset srv.agents agentId
            { agent with
                status := AgentStatus.idle
                currentTask := none
                workingBranch := none
                failedTasks := agent.failedTasks + 1 }
        | none => srv.agents
      { srv with
          tasks := dset srv.tasks taskId task1
          agents := agents1
          taskQueue := queue1
          lockManager := lm1 }

/-- `TaskServer.unassignTask`: unconditionally (for any existing task)
release the task's locks, set it back to `pending` with no assignee, push
its id to the front of the queue, and reset the previously assigned agent to
idle when its `currentTask` matches. -/
def unassignTask (srv : Server) (taskId : String) : Server :=
  match dget srv.tasks taskId with
  | none => srv
  | some task =>
    let agentId := task.assignedAgent
    let lm1 := releaseTaskLocks srv.lockManager taskId
    let task1 :=
      { task with
          status := TaskStatus.pending
          assignedAgent := none
          assignedAt := none }
    let srv1 :=
      { srv with
          tasks := dset srv.tasks taskId task1
          taskQueue := taskId :: srv.taskQueue
          lockManager := lm1 }
    match agentId with
    | some aid =>
      match dget srv1.agents aid with
      | some agent =>
        if agent.currentTask == some taskId then
          { srv1 with
              agents := dset srv1.agents aid
                { agent with
                    status := AgentStatus.idle
                    currentTask := none
                    workingBranch := none } }
        else srv1
      | none => srv1
    | none => srv1

/-- `TaskServer.updateHeartbeat`: refresh `lastHeartbeat`; adopt the reported
status when it is present and differs. -/
def updateHeartbeat (now : Nat) (srv : Server) (agentId : String)
    (status : Option AgentStatus) : Server :=
  match dget srv.agents agentId with
  | none => srv
  | some agent =>
    let agent1 := { agent with lastHeartbeat := now }
    let agent2 :=
      match status with
      | some st => if st ≠ agent.status then { agent1 with status := st } else agent1
      | none => agent1
    { srv with agents := dset srv.agents agentId agent2 }

/-- `TaskServer.unregisterAgent`: release the agent's locks, unassign its
current task, and delete the record. -/
def unregisterAgent (srv : Server) (agentId : String) : Server :=
  match dget srv.agents agentId with
  | none => srv
  | some agent =>
    let srv1 :=
      { srv with lockManager := releaseAllLocks srv.lockManager agentId }
    let srv2 :=
      match agent.currentTask with
      | some tid => unassignTask srv1 tid
      | none => srv1
    { srv2 with agents := ddel srv2.agents agentId }

/-- `TaskServer.checkAgentHeartbeats`: for every agent (iterating the
registry snapshot taken at entry) whose silence exceeds `heartbeatTimeout`,
set its status to `offline`, unassign its current task, and release all of
its locks. Note that `unassignTask` sets the very same agent back to `idle`
when its `currentTask` matches the unassigned task. -/
def checkAgentHeartbeats (now : Nat) (srv : Server) : Server :=
  (srv.agents.map (·.1)).foldl (fun s aid =>
    match dget s.agents aid with
    | none => s
    | some agent =>
      if now - agent.lastHeartbeat > s.config.heartbeatTimeout then
        let s1 := { s with agents := dset s.agents aid { agent with status := AgentStatus.offline } }
        let s2 :=
          match agent.currentTask with
          | some tid => unassignTask s1 tid
          | none => s1
        { s2 with lockManager := releaseAllLocks s2.lockManager aid }
      else s) srv

/-! ### Agent messages (`handleAgentMessage`) -/

/-- The payloads of the agent-to-coordinator messages dispatched by
`handleAgentMessage`; `TASK_UPDATE` only emits an event. -/
inductive MessagePayload where
  | agentHeartbeat (status : Option AgentStatus)
  | taskUpdate
  | taskComplete (taskId : String) (result : String)
  | taskFailed (taskId : String) (error : String)
  | lockRequest (req : LockRequest)
  | lockRelease (paths : List String)
  | agentDisconnect
deriving DecidableEq, Repr

/-- A message envelope: unique `id` plus typed payload (`Message`);
`timestamp`, `source`, `target` and `correlationId` do not influence
dispatch and are omitted. -/
structure Message where
  id : String
  payload : MessagePayload
deriving DecidableEq, Repr

/-- `TaskServer.handleAgentMessage`: dispatch on the message type. The
envelope `id` is never consulted — no handler deduplicates by message id.
`LOCK_RESPONSE` delivery is outside the model. -/
def handleAgentMessage (now : Nat) (srv : Server) (agentId : String)
    (m : Message) : Server :=
  match m.payload with
  | MessagePayload.agentHeartbeat status => updateHeartbeat now srv agentId status
  | MessagePayload.taskUpdate => srv
  | MessagePayload.taskComplete taskId result => completeTask now srv taskId agentId result
  | MessagePayload.taskFailed taskId error => failTask now srv taskId agentId error
  | MessagePayload.lockRequest req =>
    { srv with lockManager := (acquireLocks now srv.lockManager req).2 }
  | MessagePayload.lockRelease paths =>
    { srv with lockManager := (releaseLocks srv.lockManager agentId paths).2 }
  | MessagePayload.agentDisconnect => unregisterAgent srv agentId

/-! ### Concrete fixtures used by counterexamples and witnesses -/

/-- A write lock by agent a1 for task t1 that expires exactly at time 100. -/
def lockAt100 : FileLock :=
  { path := "src/a.ts", agentId := "a1", taskId := "t1",
    lockedAt := 0, expiresAt := 100, lockType := LockType.write }

/-- A lock manager holding only `lockAt100`. -/
def lmAt100 : LockManager :=
  { locks := [lockAt100], projectPath := "proj", defaultTimeout := 300000 }

/-- An empty lock manager with the default 300000 ms lease. -/
def lmEmpty : LockManager :=
  { locks := [], projectPath := "proj", defaultTimeout := 300000 }

/-- A lock request with the explicit (falsy) timeout 0. -/
def reqTimeoutZero : LockRequest :=
  { agentId := "a1", taskId := "t1", paths := ["src/a.ts"],
    lockType := LockType.write, timeoutMs := some 0 }

/-- A live write lock by agent a1 for task t1 on src/a.ts. -/
def lockHeldA1 : FileLock :=
  { path := "src/a.ts", agentId := "a1", taskId := "t1",
    lockedAt := 0, expiresAt := 1000, lockType := LockType.write }

/-- A lock manager holding only `lockHeldA1`. -/
def lmHeldA1 : LockManager :=
  { locks := [lockHeldA1], projectPath := "proj", defaultTimeout := 300000 }

/-- A request by agent a1 (for a different task) for the very path a1
already holds. -/
def reqRelock : LockRequest :=
  { agentId := "a1", taskId := "t2", paths := ["src/a.ts"],
    lockType := LockType.write, timeoutMs := none }

/-- A live read lock held by agent a2. -/
def lockReadA2 : FileLock :=
  { path := "doc.md", agentId := "a2", taskId := "t9",
    lockedAt := 0, expiresAt := 1000, lockType := LockType.read }

/-- A lock manager holding only `lockReadA2`. -/
def lmReadA2 : LockManager :=
  { locks := [lockReadA2], projectPath := "proj", defaultTimeout := 300000 }

/-- A read request by agent a1 for the path read-locked by a2. -/
def reqReadA1 : LockRequest :=
  { agentId := "a1", taskId := "t5", paths := ["doc.md"],
    lockType := LockType.read, timeoutMs := none }

/-- A live write lock by agent a2 on a path disjoint from `reqFresh`. -/
def lockOtherA2 : FileLock :=
  { path := "other.ts", agentId := "a2", taskId := "t7",
    lockedAt := 0, expiresAt := 1000, lockType := LockType.write }

/-- A lock manager holding only `lockOtherA2`. -/
def lmOtherA2 : LockManager :=
  { locks := [lockOtherA2], projectPath := "proj", defaultTimeout := 300000 }

/-- A two-path write request by agent a1 touching only fresh paths. -/
def reqFresh : LockRequest :=
  { agentId := "a1", taskId := "t3", paths := ["x.ts", "y.ts"],
    lockType := LockType.write, timeoutMs := none }

/-- The default configuration values of `DEFAULT_CONFIG` that the embedded
operations consult. -/
def cfgDefault : Config :=
  { heartbeatTimeout := 30000, gitIntegration := true, branchPfx := "agent/" }

/-- A freshly initialized coordinator with no agents, tasks or locks. -/
def srvEmpty : Server :=
  { agents := [], tasks := [], taskQueue := [], completedTasks := [],
    lockManager := { locks := [], projectPath := "proj",
                     defaultTimeout := 300000 },
    config := cfgDefault }

/-- Creation options for a task touching src/a.ts. -/
def optX : CreateTaskOptions := { title := "X", files := some ["src/a.ts"] }

/-- Coordinator after registering agent a1 at time 0, creating task t1
(target file src/a.ts) at time 0 and assigning it to a1 at time 1. -/
def srvAssigned : Server :=
  (assignTask 1
    (createTask 0 (registerAgent 0 srvEmpty "a1" none none none) "t1" optX).1
    "t1" "a1").2

/-- The task record of t1 inside `srvAssigned`. -/
def taskT1Assigned : Task :=
  { id := "t1", title := "X", description := "", priority := Priority.normal,
    status := TaskStatus.assigned, assignedAgent := some "a1",
    assignedAt := some 1, createdAt := 0, startedAt := none,
    completedAt := none, actualMinutes := none, attempts := 1,
    maxAttempts := 3, targetFiles := some ["src/a.ts"], dependsOn := none,
    blockedBy := none, branch := some "agent/a1/t1",
    baseBranch := some "main", result := none, error := none, tags := none }

/-- A TASK_COMPLETE envelope for t1 with id m1. -/
def msgComplete : Message :=
  { id := "m1", payload := MessagePayload.taskComplete "t1" "ok" }

/-- Coordinator where t1 has been assigned to a1 four times (assign at 1,
then three unassign/assign cycles at times 2, 3, 4): `attempts = 4` while
`maxAttempts = 3`. -/
def srvAtt4 : Server :=
  (assignTask 4
    (unassignTask
      (assignTask 3
        (unassignTask
          (assignTask 2 (unassignTask srvAssigned "t1") "t1" "a1").2
          "t1")
        "t1" "a1").2
      "t1")
    "t1" "a1").2

/-- Coordinator after `failTask` on `srvAtt4` at time 5: t1 is terminal
`failed` with `attempts = 4 > maxAttempts = 3` and `assignedAgent` still
a1. -/
def srvFailed4 : Server := failTask 5 srvAtt4 "t1" "a1" "boom"

/-- The task record of t1 inside `srvFailed4`. -/
def taskFailed4 : Task :=
  { id := "t1", title := "X", description := "", priority := Priority.normal,
    status := TaskStatus.failed, assignedAgent := some "a1",
    assignedAt := some 4, createdAt := 0, startedAt := none,
    completedAt := some 5, actualMinutes := none, attempts := 4,
    maxAttempts := 3, targetFiles := some ["src/a.ts"], dependsOn := none,
    blockedBy := none, branch := some "agent/a1/t1",
    baseBranch := some "main", result := none, error := some "boom",
    tags := none }

/-- Coordinator exercising the blocked-then-conflicted assignment path:
d is completed but t1's `blockedBy` still holds one copy of d (its
`dependsOn` listed d twice and completion erases only the first), and
t1's target file f.ts is write-locked by a2 for t2. -/
def srvBlockedConflict : Server :=
  (assignTask 4
    (createTask 3
      (completeTask 2
        (assignTask 1
          (createTask 0
            (createTask 0
              (registerAgent 0 (registerAgent 0 srvEmpty "a1" none none none)
                "a2" none none none)
              "d" { title := "D" }).1
            "t1" { title := "X", files := some ["f.ts"],
                   dependsOn := some ["d", "d"] }).1
          "d" "a2").2
        "d" "a2" "ok")
      "t2" { title := "Y", files := some ["f.ts"] }).1
    "t2" "a2").2

/-- Coordinator in which t1 was created at time 0 with the dangling
dependency id ghost, assigned to a1 at time 1 and completed at time 2. -/
def srvGhostDone : Server :=
  completeTask 2
    (assignTask 1
      (createTask 0 (registerAgent 0 srvEmpty "a1" none none none) "t1"
        { title := "X", dependsOn := some ["ghost"] }).1
      "t1" "a1").2
    "t1" "a1" "ok"

/-- The completed task record of t1 inside `srvGhostDone`. -/
def taskGhostDone : Task :=
  { id := "t1", title := "X", description := "", priority := Priority.normal,
    status := TaskStatus.completed, assignedAgent := some "a1",
    assignedAt := some 1, createdAt := 0, startedAt := none,
    completedAt := some 2, actualMinutes := none, attempts := 1,
    maxAttempts := 3, targetFiles := none, dependsOn := some ["ghost"],
    blockedBy := none, branch := some "agent/a1/t1",
    baseBranch := some "main", result := some "ok", error := none,
    tags := none }

/-! ### Reachability through the public coordinator operations -/

/-- A coordinator state is reachable when it arises from a fresh coordinator
by any sequence of the public coordinator operations of the task server
(registerAgent, unregisterAgent, updateHeartbeat, createTask, assignTask,
startTask, completeTask, failTask, unassignTask). -/
inductive Reach : Server → Prop where
  | init (pp : String) (dt : Nat) (cfg : Config) :
      Reach { agents := [], tasks := [], taskQueue := [], completedTasks := [],
              lockManager := { locks := [], projectPath := pp,
                               defaultTimeout := dt },
              config := cfg }
  | register (s : Server) (now : Nat) (aid : String) (nm wd : Option String)
      (caps : Option (List String)) :
      Reach s → Reach (registerAgent now s aid nm wd caps)
  | unregister (s : Server) (aid : String) :
      Reach s → Reach (unregisterAgent s aid)
  | heartbeat (s : Server) (now : Nat) (aid : String)
      (st : Option AgentStatus) :
      Reach s → Reach (updateHeartbeat now s aid st)
  | create (s : Server) (now : Nat) (tid : String)
      (opts : CreateTaskOptions) :
      Reach s → Reach ((createTask now s tid opts).1)
  | assign (s : Server) (now : Nat) (tid aid : String) :
      Reach s → Reach ((assignTask now s tid aid).2)
  | start (s : Server) (now : Nat) (tid aid : String) :
      Reach s → Reach (startTask now s tid aid)
  | complete (s : Server) (now : Nat) (tid aid : String) (r : String) :
      Reach s → Reach (completeTask now s tid aid r)
  | fail (s : Server) (now : Nat) (tid aid : String) (e : String) :
      Reach s → Reach (failTask now s tid aid e)
  | unassign (s : Server) (tid : String) :
      Reach s → Reach (unassignTask s tid)

/-- A task has no remaining blockers: the `blockedBy` field is absent or the
empty list. -/
def bbEmpty (t : Task) : Prop :=
  t.blockedBy = none ∨ t.blockedBy = some []

/-- The inductive task invariant: an assigned-to-someone task and a
completed task have no remaining blockers. -/
def TaskInv (t : Task) : Prop :=
  (t.assignedAgent ≠ none → bbEmpty t) ∧
  (t.status = TaskStatus.completed → bbEmpty t)

/-- The coordinator-wide invariant: every task record satisfies
`TaskInv`. -/
def ServerInv (s : Server) : Prop := ∀ kt ∈ s.tasks, TaskInv kt.2

/-! ### Basic lemmas about the lock table -/

theorem lockGet_path {locks : List FileLock} {k : String} {l : FileLock}
    (h : lockGet locks k = some l) : l.path = k := by
  induction locks with
  | nil => simp [lockGet] at h
  | cons x xs ih =>
    by_cases hx : x.path == k
    · simp only [lockGet, hx, if_true, Option.some.injEq] at h
      subst h
      simpa using hx
    · simp only [lockGet, hx, if_false] at h
      exact ih h

theorem lockGet_mem {locks : List FileLock} {k : String} {l : FileLock}
    (h : lockGet locks k = some l) : l ∈ locks := by
  induction locks with
  | nil => simp [lockGet] at h
  | cons x xs ih =>
    by_cases hx : x.path == k
    · simp only [lockGet, hx, if_true, Option.some.injEq] at h
      simp [← h]
    · simp only [lockGet, hx, if_false] at h
      exact List.mem_cons_of_mem _ (ih h)

theorem lockGet_eq_none {locks : List FileLock} {k : String} :
    lockGet locks k = none ↔ ∀ l ∈ locks, l.path ≠ k := by
  induction locks with
  | nil => simp [lockGet]
  | cons x xs ih =>
    by_cases hx : x.path == k
    · simp [lockGet, hx]
      intro h
      exact absurd (by simpa using hx) h
    · simp [lockGet, hx, ih]
      intro _
      simpa using hx

theorem lockGet_append (a b : List FileLock) (k : String) :
    lockGet (a ++ b) k = (lockGet a k).or (lockGet b k) := by
  induction a with
  | nil => simp [lockGet]
  | cons x xs ih =>
    by_cases hx : x.path == k
    · simp [lockGet, hx]
    · simp [lockGet, hx, ih]

theorem lockGet_lockSet_self (locks : List FileLock) (l : FileLock) :
    lockGet (lockSet locks l) l.path = some l := by
  induction locks with
  | nil => simp [lockGet, lockSet]
  | cons x xs ih =>
    by_cases hx : x.path == l.path
    · simp [lockSet, lockGet, hx]
    · simp [lockSet, lockGet, hx, ih]

theorem lockGet_lockSet_ne (locks : List FileLock) (l : FileLock) (k : String)
    (hne : k ≠ l.path) : lockGet (lockSet locks l) k = lockGet locks k := by
  have hlk : ¬ (l.path == k) := by simpa using (Ne.symm hne)
  induction locks with
  | nil => simp [lockGet, lockSet, hlk]
  | cons x xs ih =>
    by_cases hx : x.path == l.path
    · have hxk : ¬ (x.path == k) := by
        intro hc
        exact hne (by
          have h1 : x.path = l.path := by simpa using hx
          have h2 : x.path = k := by simpa using hc
          rw [← h2, h1])
      simp [lockSet, lockGet, hx, hxk, hlk]
    · by_cases hxk : x.path == k
      · simp [lockSet, lockGet, hx, hxk]
      · simp [lockSet, lockGet, hx, hxk, ih]

theorem lockSet_eq_self {locks : List FileLock} {l : FileLock}
    (hmem : lockGet locks l.path = some l) :
    lockSet locks l = locks := by
  induction locks with
  | nil => simp [lockGet] at hmem
  | cons x xs ih =>
    by_cases hx : x.path == l.path
    · simp only [lockGet, hx, if_true, Option.some.injEq] at hmem
      simp [lockSet, hx, hmem]
    · simp only [lockGet, hx, if_false] at hmem
      simp [lockSet, hx, ih hmem]

theorem lockSet_append_fresh {a b : List FileLock} {l : FileLock}
    (h : lockGet a l.path = none) :
    lockSet (a ++ b) l = a ++ lockSet b l := by
  induction a with
  | nil => simp
  | cons x xs ih =>
    by_cases hx : x.path == l.path
    · simp [lockGet, hx] at h
    · simp only [lockGet, hx, if_false] at h
      simp [lockSet, hx, ih h]

theorem lockDel_append_fresh {a b : List FileLock} {k : String}
    (h : lockGet a k = none) :
    lockDel (a ++ b) k = a ++ lockDel b k := by
  induction a with
  | nil => simp
  | cons x xs ih =>
    by_cases hx : x.path == k
    · simp [lockGet, hx] at h
    · simp only [lockGet, hx, if_false] at h
      simp [lockDel, hx, ih h]

theorem mem_lockSet {locks : List FileLock} {l x : FileLock}
    (h : x ∈ lockSet locks l) : x = l ∨ x ∈ locks := by
  induction locks with
  | nil => simpa [lockSet] using h
  | cons y ys ih =>
    by_cases hy : y.path == l.path
    · simp only [lockSet] at h
      rw [if_pos hy] at h
      rcases List.mem_cons.mp h with h | h
      · exact Or.inl h
      · exact Or.inr (List.mem_cons_of_mem _ h)
    · simp only [lockSet] at h
      rw [if_neg hy] at h
      rcases List.mem_cons.mp h with h | h
      · exact Or.inr (h ▸ List.mem_cons_self _ _)
      · rcases ih h with h2 | h2
        · exact Or.inl h2
        · exact Or.inr (List.mem_cons_of_mem _ h2)

theorem mem_lockDel {locks : List FileLock} {k : String} {x : FileLock}
    (h : x ∈ lockDel locks k) : x ∈ locks := by
  induction locks with
  | nil => simp [lockDel] at h
  | cons y ys ih =>
    by_cases hy : y.path == k
    · simp only [lockDel] at h
      rw [if_pos hy] at h
      exact List.mem_cons_of_mem _ h
    · simp only [lockDel] at h
      rw [if_neg hy] at h
      rcases List.mem_cons.mp h with h | h
      · simp [h]
      · exact List.mem_cons_of_mem _ (ih h)

theorem lockSet_keys (locks : List FileLock) (l : FileLock) :
    (lockSet locks l).map (·.path) =
      match lockGet locks l.path with
      | some _ => locks.map (·.path)
      | none => locks.map (·.path) ++ [l.path] := by
  induction locks with
  | nil => simp [lockSet, lockGet]
  | cons x xs ih =>
    by_cases hx : x.path == l.path
    · have hxl : x.path = l.path := by simpa using hx
      simp [lockSet, lockGet, hx, hxl]
    · simp only [lockSet, lockGet]
      rw [if_neg hx, if_neg hx]
      simp only [List.map_cons, ih]
      cases lockGet xs l.path <;> simp

theorem lockSet_keys_nodup {locks : List FileLock} {l : FileLock}
    (h : (locks.map (·.path)).Nodup) :
    ((lockSet locks l).map (·.path)).Nodup := by
  rw [lockSet_keys]
  cases hget : lockGet locks l.path with
  | some x => simpa using h
  | none =>
    simp only
    rw [List.nodup_append]
    refine ⟨h, List.nodup_singleton _, ?_⟩
    intro a ha
    simp only [List.mem_singleton]
    intro hb
    subst hb
    simp only [List.mem_map] at ha
    obtain ⟨x, hx, hxa⟩ := ha
    exact (lockGet_eq_none.mp hget x hx) hxa

theorem sublist_keys_nodup {a b : List FileLock}
    (hs : List.Sublist a b) (h : (b.map (·.path)).Nodup) :
    (a.map (·.path)).Nodup :=
  List.Nodup.sublist (List.Sublist.map _ hs) h

theorem lockDel_sublist (locks : List FileLock) (k : String) :
    List.Sublist (lockDel locks k) locks := by
  induction locks with
  | nil => simp [lockDel]
  | cons x xs ih =>
    by_cases hx : x.path == k
    · simp only [lockDel, hx, if_true]
      exact List.sublist_cons_self x xs
    · simp only [lockDel, hx, if_false]
      exact List.Sublist.cons₂ x ih

theorem lockSet_eq_append {locks : List FileLock} {l : FileLock}
    (h : lockGet locks l.path = none) :
    lockSet locks l = locks ++ [l] := by
  induction locks with
  | nil => simp [lockSet]
  | cons x xs ih =>
    by_cases hx : x.path == l.path
    · simp [lockGet, hx] at h
    · simp only [lockGet, hx, if_false] at h
      simp [lockSet, hx, ih h]

theorem lockDel_no_key {locks : List FileLock} {k : String} {x : FileLock}
    (hnodup : (locks.map (·.path)).Nodup)
    (h : x ∈ lockDel locks k) : x.path ≠ k := by
  induction locks with
  | nil => simp [lockDel] at h
  | cons y ys ih =>
    simp only [List.map_cons, List.nodup_cons] at hnodup
    by_cases hy : y.path == k
    · simp only [lockDel] at h
      rw [if_pos hy] at h
      intro hc
      have hyk : y.path = k := by simpa using hy
      exact hnodup.1 (by
        rw [hyk, ← hc]
        exact List.mem_map.mpr ⟨x, h, rfl⟩)
    · simp only [lockDel] at h
      rw [if_neg hy] at h
      rcases List.mem_cons.mp h with h | h
      · subst h
        simpa using hy
      · exact ih hnodup.2 h

theorem lockGet_ne_none_of_mem {locks : List FileLock} {x : FileLock}
    (h : x ∈ locks) : lockGet locks x.path ≠ none := by
  intro hc
  exact (lockGet_eq_none.mp hc x h) rfl

theorem cleanExpiredLocks_mem {now : Nat} {locks : List FileLock} {l : FileLock} :
    l ∈ cleanExpiredLocks now locks ↔ l ∈ locks ∧ now ≤ l.expiresAt := by
  unfold cleanExpiredLocks
  simp

theorem cleanExpiredLocks_eq_self {now : Nat} {locks : List FileLock}
    (h : ∀ l ∈ locks, now ≤ l.expiresAt) :
    cleanExpiredLocks now locks = locks := by
  unfold cleanExpiredLocks
  rw [List.filter_eq_self]
  intro a ha
  simpa using h a ha

/-! ### Lemmas about the acquire loop -/

section AcquireLoopLemmas

variable {now deflt : Nat} {pp : String} {req : LockRequest}

theorem acquireLoop_nil (locks : List FileLock) :
    acquireLoop now deflt pp req [] locks = ([], [], [], locks) := rfl

theorem acquireLoop_cons_fail {locks : List FileLock} {p : String}
    {el : FileLock} (rest : List String)
    (h : lockGet locks (normalizePath pp p) = some el)
    (hc : (el.agentId != req.agentId &&
      !(isCompatibleLock el.lockType req.lockType)) = true) :
    acquireLoop now deflt pp req (p :: rest) locks =
      ((acquireLoop now deflt pp req rest locks).1,
       p :: (acquireLoop now deflt pp req rest locks).2.1,
       ⟨p, el.agentId⟩ :: (acquireLoop now deflt pp req rest locks).2.2.1,
       (acquireLoop now deflt pp req rest locks).2.2.2) := by
  simp only [acquireLoop, h, hc, if_true]

theorem acquireLoop_cons_install {locks : List FileLock} {p : String}
    {el : FileLock} (rest : List String)
    (h : lockGet locks (normalizePath pp p) = some el)
    (hc : (el.agentId != req.agentId &&
      !(isCompatibleLock el.lockType req.lockType)) = false) :
    acquireLoop now deflt pp req (p :: rest) locks =
      (p :: (acquireLoop now deflt pp req rest
          (lockSet locks (freshLock now deflt req (normalizePath pp p)))).1,
       (acquireLoop now deflt pp req rest
          (lockSet locks (freshLock now deflt req (normalizePath pp p)))).2.1,
       (acquireLoop now deflt pp req rest
          (lockSet locks (freshLock now deflt req (normalizePath pp p)))).2.2.1,
       (acquireLoop now deflt pp req rest
          (lockSet locks (freshLock now deflt req (normalizePath pp p)))).2.2.2) := by
  simp only [acquireLoop, h, hc, Bool.false_eq_true, if_false]

theorem acquireLoop_cons_none {locks : List FileLock} {p : String}
    (rest : List String)
    (h : lockGet locks (normalizePath pp p) = none) :
    acquireLoop now deflt pp req (p :: rest) locks =
      (p :: (acquireLoop now deflt pp req rest
          (lockSet locks (freshLock now deflt req (normalizePath pp p)))).1,
       (acquireLoop now deflt pp req rest
          (lockSet locks (freshLock now deflt req (normalizePath pp p)))).2.1,
       (acquireLoop now deflt pp req rest
          (lockSet locks (freshLock now deflt req (normalizePath pp p)))).2.2.1,
       (acquireLoop now deflt pp req rest
          (lockSet locks (freshLock now deflt req (normalizePath pp p)))).2.2.2) := by
  simp only [acquireLoop, h]

theorem freshLock_path (k : String) :
    (freshLock now deflt req k).path = k := rfl

theorem acquireLoop_stable_fresh {k : String} :
    ∀ (paths : List String) (locks : List FileLock),
      lockGet locks k = some (freshLock now deflt req k) →
      lockGet (acquireLoop now deflt pp req paths locks).2.2.2 k =
        some (freshLock now deflt req k) := by
  intro paths
  induction paths with
  | nil => intro locks h; simpa [acquireLoop_nil] using h
  | cons p rest ih =>
    intro locks h
    cases hget : lockGet locks (normalizePath pp p) with
    | none =>
      rw [acquireLoop_cons_none rest hget]
      apply ih
      have hk : k ≠ normalizePath pp p := by
        intro hc
        rw [← hc, h] at hget
        cases hget
      rw [lockGet_lockSet_ne _ _ _ (by rw [freshLock_path]; exact hk)]
      exact h
    | some el =>
      by_cases hc : (el.agentId != req.agentId &&
          !(isCompatibleLock el.lockType req.lockType)) = true
      · rw [acquireLoop_cons_fail rest hget hc]
        exact ih locks h
      · rw [acquireLoop_cons_install rest hget
          (by simpa using hc)]
        apply ih
        by_cases hk : normalizePath pp p = k
        · rw [hk]
          have := lockGet_lockSet_self locks
            (freshLock now deflt req k)
          simpa [freshLock_path] using this
        · rw [lockGet_lockSet_ne _ _ _
            (by rw [freshLock_path]; exact fun hcc => hk hcc.symm)]
          exact h

theorem acquireLoop_stable_blocked {k : String} {el : FileLock}
    (hag : el.agentId ≠ req.agentId)
    (hcompat : isCompatibleLock el.lockType req.lockType = false) :
    ∀ (paths : List String) (locks : List FileLock),
      lockGet locks k = some el →
      lockGet (acquireLoop now deflt pp req paths locks).2.2.2 k = some el := by
  intro paths
  induction paths with
  | nil => intro locks h; simpa [acquireLoop_nil] using h
  | cons p rest ih =>
    intro locks h
    cases hget : lockGet locks (normalizePath pp p) with
    | none =>
      rw [acquireLoop_cons_none rest hget]
      apply ih
      have hk : k ≠ normalizePath pp p := by
        intro hc
        rw [← hc, h] at hget
        cases hget
      rw [lockGet_lockSet_ne _ _ _ (by rw [freshLock_path]; exact hk)]
      exact h
    | some el2 =>
      by_cases hc : (el2.agentId != req.agentId &&
          !(isCompatibleLock el2.lockType req.lockType)) = true
      · rw [acquireLoop_cons_fail rest hget hc]
        exact ih locks h
      · rw [acquireLoop_cons_install rest hget (by simpa using hc)]
        apply ih
        by_cases hk : normalizePath pp p = k
        · -- impossible: the entry at k is blocked, so the condition
          -- would have been true
          rw [hk, h] at hget
          cases hget
          simp only [Bool.and_eq_true, bne_iff_ne, Bool.not_eq_true'] at hc
          exact absurd ⟨hag, hcompat⟩ hc
        · rw [lockGet_lockSet_ne _ _ _
            (by rw [freshLock_path]; exact fun hcc => hk hcc.symm)]
          exact h

theorem acquireLoop_acquired_fresh :
    ∀ (paths : List String) (locks : List FileLock) (p : String),
      p ∈ (acquireLoop now deflt pp req paths locks).1 →
      lockGet (acquireLoop now deflt pp req paths locks).2.2.2
          (normalizePath pp p) =
        some (freshLock now deflt req (normalizePath pp p)) := by
  intro paths
  induction paths with
  | nil => intro locks p hp; simp [acquireLoop_nil] at hp
  | cons q rest ih =>
    intro locks p hp
    cases hget : lockGet locks (normalizePath pp q) with
    | none =>
      rw [acquireLoop_cons_none rest hget] at hp ⊢
      rcases List.mem_cons.mp hp with hpq | hp2
      · subst hpq
        apply acquireLoop_stable_fresh
        have := lockGet_lockSet_self locks
          (freshLock now deflt req (normalizePath pp p))
        simpa [freshLock_path] using this
      · exact ih _ p hp2
    | some el =>
      by_cases hc : (el.agentId != req.agentId &&
          !(isCompatibleLock el.lockType req.lockType)) = true
      · rw [acquireLoop_cons_fail rest hget hc] at hp ⊢
        exact ih locks p hp
      · rw [acquireLoop_cons_install rest hget (by simpa using hc)] at hp ⊢
        rcases List.mem_cons.mp hp with hpq | hp2
        · subst hpq
          apply acquireLoop_stable_fresh
          have := lockGet_lockSet_self locks
            (freshLock now deflt req (normalizePath pp p))
          simpa [freshLock_path] using this
        · exact ih _ p hp2

theorem acquireLoop_failed_eq :
    ∀ (paths : List String) (locks : List FileLock),
      (acquireLoop now deflt pp req paths locks).2.1 =
        ((acquireLoop now deflt pp req paths locks).2.2.1).map (·.path) := by
  intro paths
  induction paths with
  | nil => intro locks; simp [acquireLoop_nil]
  | cons q rest ih =>
    intro locks
    cases hget : lockGet locks (normalizePath pp q) with
    | none =>
      rw [acquireLoop_cons_none rest hget]
      exact ih _
    | some el =>
      by_cases hc : (el.agentId != req.agentId &&
          !(isCompatibleLock el.lockType req.lockType)) = true
      · rw [acquireLoop_cons_fail rest hget hc]
        simp only [List.map_cons]
        rw [ih locks]
      · rw [acquireLoop_cons_install rest hget (by simpa using hc)]
        exact ih _

theorem acquireLoop_conflicts_sound :
    ∀ (paths : List String) (locks : List FileLock) (c : LockConflict),
      c ∈ (acquireLoop now deflt pp req paths locks).2.2.1 →
      c.heldBy ≠ req.agentId ∧
        ∃ el, lockGet (acquireLoop now deflt pp req paths locks).2.2.2
            (normalizePath pp c.path) = some el ∧
          el.agentId = c.heldBy ∧
          isCompatibleLock el.lockType req.lockType = false := by
  intro paths
  induction paths with
  | nil => intro locks c hc; simp [acquireLoop_nil] at hc
  | cons q rest ih =>
    intro locks c hcmem
    cases hget : lockGet locks (normalizePath pp q) with
    | none =>
      rw [acquireLoop_cons_none rest hget] at hcmem ⊢
      exact ih _ c hcmem
    | some el =>
      by_cases hc : (el.agentId != req.agentId &&
          !(isCompatibleLock el.lockType req.lockType)) = true
      · rw [acquireLoop_cons_fail rest hget hc] at hcmem ⊢
        simp only [Bool.and_eq_true, bne_iff_ne, Bool.not_eq_true'] at hc
        rcases List.mem_cons.mp hcmem with hcq | hc2
        · subst hcq
          refine ⟨hc.1, el, ?_, rfl, hc.2⟩
          exact acquireLoop_stable_blocked hc.1 hc.2 rest locks hget
        · exact ih locks c hc2
      · rw [acquireLoop_cons_install rest hget (by simpa using hc)] at hcmem ⊢
        exact ih _ c hcmem

theorem acquireLoop_partition :
    ∀ (paths : List String) (locks : List FileLock) (p : String),
      p ∈ paths →
      p ∈ (acquireLoop now deflt pp req paths locks).1 ∨
        p ∈ (acquireLoop now deflt pp req paths locks).2.1 := by
  intro paths
  induction paths with
  | nil => intro locks p hp; simp at hp
  | cons q rest ih =>
    intro locks p hp
    cases hget : lockGet locks (normalizePath pp q) with
    | none =>
      rw [acquireLoop_cons_none rest hget]
      rcases List.mem_cons.mp hp with hpq | hp2
      · exact Or.inl (by simp [hpq])
      · rcases ih _ p hp2 with h | h
        · exact Or.inl (List.mem_cons_of_mem _ h)
        · exact Or.inr h
    | some el =>
      by_cases hc : (el.agentId != req.agentId &&
          !(isCompatibleLock el.lockType req.lockType)) = true
      · rw [acquireLoop_cons_fail rest hget hc]
        rcases List.mem_cons.mp hp with hpq | hp2
        · exact Or.inr (by simp [hpq])
        · rcases ih locks p hp2 with h | h
          · exact Or.inl h
          · exact Or.inr (List.mem_cons_of_mem _ h)
      · rw [acquireLoop_cons_install rest hget (by simpa using hc)]
        rcases List.mem_cons.mp hp with hpq | hp2
        · exact Or.inl (by simp [hpq])
        · rcases ih _ p hp2 with h | h
          · exact Or.inl (List.mem_cons_of_mem _ h)
          · exact Or.inr h

theorem acquireLoop_unexpired :
    ∀ (paths : List String) (locks : List FileLock),
      (∀ l ∈ locks, now ≤ l.expiresAt) →
      ∀ l ∈ (acquireLoop now deflt pp req paths locks).2.2.2,
        now ≤ l.expiresAt := by
  intro paths
  induction paths with
  | nil => intro locks h l hl; rw [acquireLoop_nil] at hl; exact h l hl
  | cons q rest ih =>
    intro locks h l hl
    cases hget : lockGet locks (normalizePath pp q) with
    | none =>
      rw [acquireLoop_cons_none rest hget] at hl
      refine ih _ ?_ l hl
      intro x hx
      rcases mem_lockSet hx with hx2 | hx2
      · subst hx2
        simp [freshLock]
      · exact h x hx2
    | some el =>
      by_cases hc : (el.agentId != req.agentId &&
          !(isCompatibleLock el.lockType req.lockType)) = true
      · rw [acquireLoop_cons_fail rest hget hc] at hl
        exact ih locks h l hl
      · rw [acquireLoop_cons_install rest hget (by simpa using hc)] at hl
        refine ih _ ?_ l hl
        intro x hx
        rcases mem_lockSet hx with hx2 | hx2
        · subst hx2
          simp [freshLock]
        · exact h x hx2

theorem acquireLoop_keys_nodup :
    ∀ (paths : List String) (locks : List FileLock),
      (locks.map (·.path)).Nodup →
      (((acquireLoop now deflt pp req paths locks).2.2.2).map (·.path)).Nodup := by
  intro paths
  induction paths with
  | nil => intro locks h; rw [acquireLoop_nil]; exact h
  | cons q rest ih =>
    intro locks h
    cases hget : lockGet locks (normalizePath pp q) with
    | none =>
      rw [acquireLoop_cons_none rest hget]
      exact ih _ (lockSet_keys_nodup h)
    | some el =>
      by_cases hc : (el.agentId != req.agentId &&
          !(isCompatibleLock el.lockType req.lockType)) = true
      · rw [acquireLoop_cons_fail rest hget hc]
        exact ih locks h
      · rw [acquireLoop_cons_install rest hget (by simpa using hc)]
        exact ih _ (lockSet_keys_nodup h)

/-- A key whose current entry (if any) is owned by the requester or
read-compatible with the request is acquired by the loop and ends up
holding the fresh lock record. -/
theorem acquireLoop_ok_acquires :
    ∀ (paths : List String) (locks : List FileLock) (p : String),
      p ∈ paths →
      (∀ el, lockGet locks (normalizePath pp p) = some el →
        el.agentId = req.agentId ∨
          isCompatibleLock el.lockType req.lockType = true) →
      p ∈ (acquireLoop now deflt pp req paths locks).1 ∧
        lockGet (acquireLoop now deflt pp req paths locks).2.2.2
            (normalizePath pp p) =
          some (freshLock now deflt req (normalizePath pp p)) := by
  intro paths
  induction paths with
  | nil => intro locks p hp; simp at hp
  | cons q rest ih =>
    intro locks p hp hok
    cases hget : lockGet locks (normalizePath pp q) with
    | none =>
      rw [acquireLoop_cons_none rest hget]
      by_cases hpq : p = q
      · subst hpq
        constructor
        · simp
        · apply acquireLoop_stable_fresh
          have := lockGet_lockSet_self locks
            (freshLock now deflt req (normalizePath pp p))
          simpa [freshLock_path] using this
      · have hp2 : p ∈ rest := by
          rcases List.mem_cons.mp hp with h | h
          · exact absurd h hpq
          · exact h
        have hok2 : ∀ el,
            lockGet (lockSet locks (freshLock now deflt req (normalizePath pp q)))
              (normalizePath pp p) = some el →
            el.agentId = req.agentId ∨
              isCompatibleLock el.lockType req.lockType = true := by
          intro el hel
          by_cases hkk : normalizePath pp p = normalizePath pp q
          · rw [hkk] at hel
            have := lockGet_lockSet_self locks
              (freshLock now deflt req (normalizePath pp q))
            rw [freshLock_path] at this
            rw [this] at hel
            cases hel
            exact Or.inl rfl
          · rw [lockGet_lockSet_ne _ _ _
              (by rw [freshLock_path]; exact hkk)] at hel
            exact hok el hel
        have := ih _ p hp2 hok2
        exact ⟨List.mem_cons_of_mem _ this.1, this.2⟩
    | some el =>
      by_cases hc : (el.agentId != req.agentId &&
          !(isCompatibleLock el.lockType req.lockType)) = true
      · -- the blocked-entry case: p itself cannot be at this key
        rw [acquireLoop_cons_fail rest hget hc]
        simp only [Bool.and_eq_true, bne_iff_ne, Bool.not_eq_true'] at hc
        by_cases hpq : p = q
        · subst hpq
          rcases hok el hget with h | h
          · exact absurd h hc.1
          · rw [hc.2] at h
            cases h
        · have hp2 : p ∈ rest := by
            rcases List.mem_cons.mp hp with h | h
            · exact absurd h hpq
            · exact h
          exact ih locks p hp2 hok
      · rw [acquireLoop_cons_install rest hget (by simpa using hc)]
        by_cases hpq : p = q
        · subst hpq
          constructor
          · simp
          · apply acquireLoop_stable_fresh
            have := lockGet_lockSet_self locks
              (freshLock now deflt req (normalizePath pp p))
            simpa [freshLock_path] using this
        · have hp2 : p ∈ rest := by
            rcases List.mem_cons.mp hp with h | h
            · exact absurd h hpq
            · exact h
          have hok2 : ∀ el2,
              lockGet (lockSet locks (freshLock now deflt req (normalizePath pp q)))
                (normalizePath pp p) = some el2 →
              el2.agentId = req.agentId ∨
                isCompatibleLock el2.lockType req.lockType = true := by
            intro el2 hel
            by_cases hkk : normalizePath pp p = normalizePath pp q
            · rw [hkk] at hel
              have := lockGet_lockSet_self locks
                (freshLock now deflt req (normalizePath pp q))
              rw [freshLock_path] at this
              rw [this] at hel
              cases hel
              exact Or.inl rfl
            · rw [lockGet_lockSet_ne _ _ _
                (by rw [freshLock_path]; exact hkk)] at hel
              exact hok el2 hel
          have := ih _ p hp2 hok2
          exact ⟨List.mem_cons_of_mem _ this.1, this.2⟩

/-- When every requested path is free in the base table, the loop acquires
everything and only appends fresh records (the round-trip workhorse). -/
theorem acquireLoop_fresh_all :
    ∀ (paths : List String) (base extra : List FileLock),
      (∀ p ∈ paths, lockGet base (normalizePath pp p) = none) →
      (∀ l ∈ extra, l = freshLock now deflt req l.path) →
      (∀ l ∈ extra, lockGet base l.path = none) →
      ((extra.map (·.path)).Nodup) →
      ∃ extra2,
        acquireLoop now deflt pp req paths (base ++ extra) =
          (paths, [], [], base ++ extra2) ∧
        (∀ l ∈ extra2, l = freshLock now deflt req l.path) ∧
        (∀ l ∈ extra2, lockGet base l.path = none) ∧
        ((extra2.map (·.path)).Nodup) ∧
        (∀ l ∈ extra2, l.path ∈ extra.map (·.path) ∨
          ∃ p ∈ paths, normalizePath pp p = l.path) := by
  intro paths
  induction paths with
  | nil =>
    intro base extra hfree hfresh hbase hnodup
    refine ⟨extra, by rw [acquireLoop_nil], hfresh, hbase, hnodup, ?_⟩
    intro l hl
    exact Or.inl (List.mem_map.mpr ⟨l, hl, rfl⟩)
  | cons p rest ih =>
    intro base extra hfree hfresh hbase hnodup
    have hbasek : lockGet base (normalizePath pp p) = none :=
      hfree p (List.mem_cons_self _ _)
    have hsplit : lockGet (base ++ extra) (normalizePath pp p) =
        lockGet extra (normalizePath pp p) := by
      rw [lockGet_append, hbasek, Option.none_or]
    cases hx : lockGet extra (normalizePath pp p) with
    | some el =>
      have hget : lockGet (base ++ extra) (normalizePath pp p) = some el := by
        rw [hsplit, hx]
      have helpath : el.path = normalizePath pp p := lockGet_path hx
      have helfresh : el = freshLock now deflt req el.path :=
        hfresh el (lockGet_mem hx)
      have helagent : el.agentId = req.agentId := by
        rw [helfresh]
        rfl
      have hcond : (el.agentId != req.agentId &&
          !(isCompatibleLock el.lockType req.lockType)) = false := by
        simp [helagent]
      rw [acquireLoop_cons_install rest hget hcond]
      have hsetid : lockSet (base ++ extra)
          (freshLock now deflt req (normalizePath pp p)) = base ++ extra := by
        apply lockSet_eq_self
        rw [freshLock_path, hget]
        rw [helfresh, helpath]
      rw [hsetid]
      obtain ⟨extra2, hloop, hf2, hb2, hn2, hk2⟩ :=
        ih base extra (fun q hq => hfree q (List.mem_cons_of_mem _ hq))
          hfresh hbase hnodup
      refine ⟨extra2, ?_, hf2, hb2, hn2, ?_⟩
      · rw [hloop]
      · intro l hl
        rcases hk2 l hl with h | ⟨q, hq, hqk⟩
        · exact Or.inl h
        · exact Or.inr ⟨q, List.mem_cons_of_mem _ hq, hqk⟩
    | none =>
      have hget : lockGet (base ++ extra) (normalizePath pp p) = none := by
        rw [hsplit, hx]
      rw [acquireLoop_cons_none rest hget]
      have hsetapp : lockSet (base ++ extra)
          (freshLock now deflt req (normalizePath pp p)) =
          base ++ (extra ++ [freshLock now deflt req (normalizePath pp p)]) := by
        rw [lockSet_eq_append (by rw [freshLock_path]; exact hget)]
        rw [List.append_assoc]
      rw [hsetapp]
      have hfresh2 : ∀ l ∈ extra ++ [freshLock now deflt req (normalizePath pp p)],
          l = freshLock now deflt req l.path := by
        intro l hl
        rcases List.mem_append.mp hl with h | h
        · exact hfresh l h
        · simp only [List.mem_singleton] at h
          subst h
          rw [freshLock_path]
      have hbase2 : ∀ l ∈ extra ++ [freshLock now deflt req (normalizePath pp p)],
          lockGet base l.path = none := by
        intro l hl
        rcases List.mem_append.mp hl with h | h
        · exact hbase l h
        · simp only [List.mem_singleton] at h
          subst h
          rw [freshLock_path]
          exact hbasek
      have hnodup2 : (((extra ++ [freshLock now deflt req (normalizePath pp p)]).map
          (·.path))).Nodup := by
        rw [List.map_append, List.nodup_append]
        refine ⟨hnodup, by simp, ?_⟩
        intro a ha
        simp only [List.map_cons, List.map_nil, List.mem_singleton,
          freshLock_path]
        intro hb
        subst hb
        simp only [List.mem_map] at ha
        obtain ⟨x, hxm, hxp⟩ := ha
        exact (lockGet_eq_none.mp hx x hxm) hxp
      obtain ⟨extra2, hloop, hf2, hb2, hn2, hk2⟩ :=
        ih base (extra ++ [freshLock now deflt req (normalizePath pp p)])
          (fun q hq => hfree q (List.mem_cons_of_mem _ hq))
          hfresh2 hbase2 hnodup2
      refine ⟨extra2, ?_, hf2, hb2, hn2, ?_⟩
      · rw [hloop]
      · intro l hl
        rcases hk2 l hl with h | ⟨q, hq, hqk⟩
        · rw [List.map_append] at h
          rcases List.mem_append.mp h with h2 | h2
          · exact Or.inl h2
          · simp only [List.map_cons, List.map_nil, List.mem_singleton,
              freshLock_path] at h2
            exact Or.inr ⟨p, List.mem_cons_self _ _, h2.symm⟩
        · exact Or.inr ⟨q, List.mem_cons_of_mem _ hq, hqk⟩

end AcquireLoopLemmas

/-! ### Lemmas about the release loop -/

section ReleaseLoopLemmas

variable {pp agentId : String}

theorem releaseLoop_nil (locks : List FileLock) :
    releaseLoop pp agentId [] locks = ([], locks) := rfl

/-- Releasing the paths of a batch of appended agent-owned locks drains
exactly those locks and leaves the base table untouched. -/
theorem releaseLoop_drain :
    ∀ (paths : List String) (base extra : List FileLock),
      (∀ p ∈ paths, lockGet base (normalizePath pp p) = none) →
      (∀ l ∈ extra, l.agentId = agentId) →
      ((extra.map (·.path)).Nodup) →
      (∀ l ∈ extra, ∃ p ∈ paths, normalizePath pp p = l.path) →
      (releaseLoop pp agentId paths (base ++ extra)).2 = base := by
  intro paths
  induction paths with
  | nil =>
    intro base extra hfree hag hnodup hwit
    have hextra : extra = [] := by
      cases extra with
      | nil => rfl
      | cons x xs =>
        obtain ⟨p, hp, _⟩ := hwit x (List.mem_cons_self _ _)
        simp at hp
    subst hextra
    simp [releaseLoop_nil]
  | cons p rest ih =>
    intro base extra hfree hag hnodup hwit
    have hbasek : lockGet base (normalizePath pp p) = none :=
      hfree p (List.mem_cons_self _ _)
    have hsplit : lockGet (base ++ extra) (normalizePath pp p) =
        lockGet extra (normalizePath pp p) := by
      rw [lockGet_append, hbasek, Option.none_or]
    cases hx : lockGet extra (normalizePath pp p) with
    | some l =>
      have hget : lockGet (base ++ extra) (normalizePath pp p) = some l := by
        rw [hsplit, hx]
      have hlag : (l.agentId == agentId) = true := by
        simp [hag l (lockGet_mem hx)]
      simp only [releaseLoop, hget, hlag, if_true]
      have hdel : lockDel (base ++ extra) (normalizePath pp p) =
          base ++ lockDel extra (normalizePath pp p) :=
        lockDel_append_fresh hbasek
      rw [hdel]
      apply ih base (lockDel extra (normalizePath pp p))
        (fun q hq => hfree q (List.mem_cons_of_mem _ hq))
      · intro x hx2
        exact hag x (mem_lockDel hx2)
      · exact sublist_keys_nodup (lockDel_sublist _ _) hnodup
      · intro x hx2
        obtain ⟨q, hq, hqk⟩ := hwit x (mem_lockDel hx2)
        rcases List.mem_cons.mp hq with hqp | hq2
        · exfalso
          subst hqp
          exact (lockDel_no_key hnodup hx2) hqk.symm
        · exact ⟨q, hq2, hqk⟩
    | none =>
      have hget : lockGet (base ++ extra) (normalizePath pp p) = none := by
        rw [hsplit, hx]
      simp only [releaseLoop, hget]
      apply ih base extra
        (fun q hq => hfree q (List.mem_cons_of_mem _ hq)) hag hnodup
      intro x hx2
      obtain ⟨q, hq, hqk⟩ := hwit x hx2
      rcases List.mem_cons.mp hq with hqp | hq2
      · exfalso
        subst hqp
        exact (lockGet_ne_none_of_mem hx2) (hqk ▸ hx)
      · exact ⟨q, hq2, hqk⟩

end ReleaseLoopLemmas

/-! ### Claim C7 — expiry boundary -/

/-- C7 counterexample: the claim says a lock with `expiresAt = now` is
treated as expired and every sweep evicts locks with `expiresAt ≤ now`. At
`now = 100` a lock with `expiresAt = 100` is still reported locked by
`isLocked`, still returned by `getAllLocks`, and still causes a conflict in
`checkConflicts` — so the claim is false at this input. -/
theorem c7_counterexample :
    (isLocked 100 lmAt100 "src/a.ts").1 = true ∧
    (getAllLocks 100 lmAt100).1 = [lockAt100] ∧
    (checkConflicts 100 lmAt100 "a2" ["src/a.ts"]).1 =
      [⟨"src/a.ts", "a1"⟩] := by
  decide

/-- C7 (amended): expiry in the in-memory lock operations is strict — a lock
is evicted or ignored exactly when `expiresAt < now`, so a lock with
`expiresAt = now` is still live. `cleanExpiredLocks` (the sweep used inside
`acquireLocks` and `checkConflicts`) keeps exactly the entries with
`now ≤ expiresAt`; `isLocked` reports a path locked exactly when its entry
has `now ≤ expiresAt`; `getAllLocks` returns the swept table, and
`checkConflicts` stores the swept table back. -/
theorem c7_expiry_strict :
    ∀ (now : Nat) (locks : List FileLock) (l : FileLock) (lm : LockManager)
      (p agentId : String) (paths : List String),
      (l ∈ cleanExpiredLocks now locks ↔ l ∈ locks ∧ now ≤ l.expiresAt) ∧
      ((isLocked now lm p).1 = true ↔
        ∃ l2, lockGet lm.locks (normalizePath lm.projectPath p) = some l2 ∧
          now ≤ l2.expiresAt) ∧
      ((getAllLocks now lm).1 = cleanExpiredLocks now lm.locks) ∧
      ((checkConflicts now lm agentId paths).2.locks =
        cleanExpiredLocks now lm.locks) := by
  intro now locks l lm p agentId paths
  refine ⟨cleanExpiredLocks_mem, ?_, rfl, rfl⟩
  cases hget : lockGet lm.locks (normalizePath lm.projectPath p) with
  | none =>
    simp only [isLocked, hget]
    constructor
    · intro h
      cases h
    · rintro ⟨l2, hl2, _⟩
      cases hl2
  | some l2 =>
    by_cases hexp : now > l2.expiresAt
    · simp only [isLocked, hget, if_pos hexp]
      constructor
      · intro h
        cases h
      · rintro ⟨l3, hl3, hle⟩
        cases hl3
        exact absurd hle (by omega)
    · simp only [isLocked, hget, if_neg hexp]
      refine ⟨fun _ => ⟨l2, rfl, by omega⟩, fun _ => ?_⟩
      trivial

/-! ### Claim C6 — acquireLocks postcondition -/

/-- C6 counterexample: the claim computes `expiresAt` as
`now + (timeoutMs ?? defaultTimeout)`, which at `timeoutMs = 0` would give
`now + 0 = 7`. The source uses JavaScript `timeoutMs || defaultTimeout`, so
the falsy timeout 0 selects the default and the installed lock expires at
`7 + 300000 = 300007 ≠ 7`. -/
theorem c6_counterexample :
    ((acquireLocks 7 lmEmpty reqTimeoutZero).2.locks.map (·.expiresAt)) =
      [300007] ∧ (300007 : Nat) ≠ 7 + 0 := by
  decide

/-- C6 (amended): after the expired-lock sweep, each requested path is
either acquired — and then the new table holds a fresh lock for its
normalized form with `expiresAt = now + t`, where `t` is `timeoutMs` when
that is provided and non-zero (JavaScript `||`), else `defaultTimeout` — or
it is listed in `failed` together with a `{path, heldBy}` conflict
descriptor naming a different agent whose unexpired lock is incompatible;
`success` is `true` iff `failed` is empty, and the fresh locks of the
acquired paths are kept in the table even when `success = false`. -/
theorem c6_acquire_postcondition :
    ∀ (now : Nat) (lm : LockManager) (req : LockRequest),
      ((acquireLocks now lm req).1.success = true ↔
        (acquireLocks now lm req).1.failed = []) ∧
      (∀ p ∈ req.paths, p ∈ (acquireLocks now lm req).1.acquired ∨
        p ∈ (acquireLocks now lm req).1.failed) ∧
      (∀ p ∈ (acquireLocks now lm req).1.acquired,
        lockGet (acquireLocks now lm req).2.locks
            (normalizePath lm.projectPath p) =
          some (freshLock now lm.defaultTimeout req
            (normalizePath lm.projectPath p))) ∧
      ((acquireLocks now lm req).1.failed =
        ((acquireLocks now lm req).1.conflicts).map (·.path)) ∧
      (∀ c ∈ (acquireLocks now lm req).1.conflicts,
        c.heldBy ≠ req.agentId ∧
        ∃ el, lockGet (acquireLocks now lm req).2.locks
            (normalizePath lm.projectPath c.path) = some el ∧
          el.agentId = c.heldBy ∧
          isCompatibleLock el.lockType req.lockType = false ∧
          now ≤ el.expiresAt) := by
  intro now lm req
  refine ⟨?_, ?_, ?_, ?_, ?_⟩
  · simp only [acquireLocks]
    exact List.isEmpty_iff
  · intro p hp
    simpa only [acquireLocks] using
      acquireLoop_partition req.paths (cleanExpiredLocks now lm.locks) p hp
  · intro p hp
    simp only [acquireLocks] at hp ⊢
    exact acquireLoop_acquired_fresh req.paths
      (cleanExpiredLocks now lm.locks) p hp
  · simp only [acquireLocks]
    exact acquireLoop_failed_eq req.paths (cleanExpiredLocks now lm.locks)
  · intro c hc
    simp only [acquireLocks] at hc ⊢
    obtain ⟨hne, el, hel, hag, hcompat⟩ :=
      acquireLoop_conflicts_sound req.paths
        (cleanExpiredLocks now lm.locks) c hc
    refine ⟨hne, el, hel, hag, hcompat, ?_⟩
    refine acquireLoop_unexpired req.paths (cleanExpiredLocks now lm.locks)
      ?_ el (lockGet_mem hel)
    intro x hx
    exact (cleanExpiredLocks_mem.mp hx).2

/-! ### Claim C10 — at most one lock per path; replacement on re-acquire -/

/-- C10 (confirmed): the lock table maps each normalized path to at most one
record (key uniqueness is preserved by `acquireLocks`), and whenever
`acquireLocks` is asked for a path whose current (post-sweep) lock is held
by the requesting agent — any type — or is a read lock met by a read
request from a different agent, the path is acquired and its old record is
replaced by a fresh record owned by the requester with `lockedAt = now` and
a new `expiresAt`; in the read/read case this transfers ownership. -/
theorem c10_reacquire_replaces :
    ∀ (now : Nat) (lm : LockManager) (req : LockRequest) (p : String),
      ((lm.locks.map (·.path)).Nodup →
        (((acquireLocks now lm req).2.locks.map (·.path)).Nodup)) ∧
      (p ∈ req.paths →
        ∀ el, lockGet (cleanExpiredLocks now lm.locks)
            (normalizePath lm.projectPath p) = some el →
          (el.agentId = req.agentId ∨
            (el.lockType = LockType.read ∧ req.lockType = LockType.read)) →
          p ∈ (acquireLocks now lm req).1.acquired ∧
            lockGet (acquireLocks now lm req).2.locks
                (normalizePath lm.projectPath p) =
              some (freshLock now lm.defaultTimeout req
                (normalizePath lm.projectPath p))) := by
  intro now lm req p
  constructor
  · intro hnodup
    simp only [acquireLocks]
    apply acquireLoop_keys_nodup
    exact sublist_keys_nodup (List.filter_sublist _) hnodup
  · intro hp el hget hok
    have hok2 : ∀ el2, lockGet (cleanExpiredLocks now lm.locks)
        (normalizePath lm.projectPath p) = some el2 →
        el2.agentId = req.agentId ∨
          isCompatibleLock el2.lockType req.lockType = true := by
      intro el2 hel2
      rw [hget] at hel2
      cases hel2
      rcases hok with h | h
      · exact Or.inl h
      · refine Or.inr ?_
        rw [isCompatibleLock, h.1, h.2]
        rfl
    have := @acquireLoop_ok_acquires now lm.defaultTimeout lm.projectPath req
      req.paths (cleanExpiredLocks now lm.locks) p hp hok2
    simpa only [acquireLocks] using this

/-- C10 witness: a concrete read/read re-acquisition. Agent a2 holds a read
lock on doc.md; a read request by a1 acquires the path and the table ends
up holding the fresh record owned by a1. -/
theorem c10_witness :
    (((acquireLocks 5 lmReadA2 reqReadA1).2.locks.map (·.path)).Nodup) ∧
    ("doc.md" ∈ (acquireLocks 5 lmReadA2 reqReadA1).1.acquired ∧
      lockGet (acquireLocks 5 lmReadA2 reqReadA1).2.locks
          (normalizePath lmReadA2.projectPath "doc.md") =
        some (freshLock 5 lmReadA2.defaultTimeout reqReadA1
          (normalizePath lmReadA2.projectPath "doc.md"))) := by
  have h := c10_reacquire_replaces 5 lmReadA2 reqReadA1 "doc.md"
  exact ⟨h.1 (by decide), h.2 (by decide) lockReadA2 (by decide) (by decide)⟩

/-! ### Claim C8 — acquire/release round trip -/

/-- C8 counterexample: the claim says acquire-then-release always restores
the lock table. When the requesting agent already holds a lock on the
requested path, the acquire replaces that lock with a fresh record and the
release then deletes it, so the original lock is lost: the table ends up
empty instead of holding `lockHeldA1`. -/
theorem c8_counterexample :
    (releaseLocks (acquireLocks 5 lmHeldA1 reqRelock).2 "a1"
        (acquireLocks 5 lmHeldA1 reqRelock).1.acquired).2.locks = [] ∧
    lmHeldA1.locks ≠ [] := by
  decide

/-- C8 (amended): acquire-then-release restores the lock manager exactly
when the request touches only free paths — no lock (expired or not) exists
on any requested path's normalized form and no lock in the table is expired
at acquisition time (so the initial sweep removes nothing). Under those
hypotheses `acquireLocks(req)` followed by
`releaseLocks(req.agentId, acquired)` is the identity on the manager. -/
theorem c8_roundtrip_free (now : Nat) (lm : LockManager) (req : LockRequest)
    (h1 : ∀ l ∈ lm.locks, now ≤ l.expiresAt)
    (h2 : ∀ p ∈ req.paths,
      lockGet lm.locks (normalizePath lm.projectPath p) = none) :
    (releaseLocks (acquireLocks now lm req).2 req.agentId
      (acquireLocks now lm req).1.acquired).2 = lm := by
  have hclean : cleanExpiredLocks now lm.locks = lm.locks :=
    cleanExpiredLocks_eq_self h1
  obtain ⟨extra2, hloop, hfresh, hbase, hnodup, hkeys⟩ :=
    @acquireLoop_fresh_all now lm.defaultTimeout lm.projectPath req
      req.paths lm.locks [] h2 (by simp) (by simp) (by simp)
  rw [List.append_nil] at hloop
  have hX : (acquireLocks now lm req).2 =
      { lm with locks := lm.locks ++ extra2 } := by
    simp only [acquireLocks, hclean, hloop]
  have hacq : (acquireLocks now lm req).1.acquired = req.paths := by
    simp only [acquireLocks, hclean, hloop]
  rw [hX, hacq]
  have hag : ∀ l ∈ extra2, l.agentId = req.agentId := by
    intro l hl
    rw [hfresh l hl]
    rfl
  have hwit : ∀ l ∈ extra2,
      ∃ q ∈ req.paths, normalizePath lm.projectPath q = l.path := by
    intro l hl
    rcases hkeys l hl with h | h
    · simp at h
    · exact h
  have hdrain := @releaseLoop_drain lm.projectPath req.agentId req.paths
    lm.locks extra2 h2 hag hnodup hwit
  have hrel : (releaseLocks { lm with locks := lm.locks ++ extra2 }
        req.agentId req.paths).2 =
      { lm with locks := (releaseLoop lm.projectPath req.agentId req.paths
        (lm.locks ++ extra2)).2 } := rfl
  rw [hrel, hdrain]

/-- C8 witness: the round trip at a concrete state holding an unrelated
(a2-owned, unexpired) lock and a two-path request for fresh paths. -/
theorem c8_witness :
    (releaseLocks (acquireLocks 5 lmOtherA2 reqFresh).2 reqFresh.agentId
      (acquireLocks 5 lmOtherA2 reqFresh).1.acquired).2 = lmOtherA2 :=
  c8_roundtrip_free 5 lmOtherA2 reqFresh (by decide) (by decide)

/-! ### Basic lemmas about string-keyed maps -/

theorem dget_dset_self (m : List (String × α)) (k : String) (v : α) :
    dget (dset m k v) k = some v := by
  induction m with
  | nil => simp [dget, dset]
  | cons p ps ih =>
    by_cases hp : p.1 == k
    · simp [dset, dget, hp]
    · simp [dset, dget, hp, ih]

theorem dget_dset_ne (m : List (String × α)) (k k2 : String) (v : α)
    (h : k2 ≠ k) : dget (dset m k v) k2 = dget m k2 := by
  have hkk : ¬ (k == k2) := by simpa using (Ne.symm h)
  induction m with
  | nil => simp [dget, dset, hkk]
  | cons p ps ih =>
    by_cases hp : p.1 == k
    · have hp1 : p.1 = k := by simpa using hp
      have hp2 : ¬ (p.1 == k2) := by
        rw [hp1]
        exact hkk
      simp [dset, dget, hp, hp1, hp2, hkk]
    · by_cases hp2 : p.1 == k2
      · simp [dset, dget, hp, hp2]
      · simp [dset, dget, hp, hp2, ih]

theorem dget_some_mem {m : List (String × α)} {k : String} {v : α}
    (h : dget m k = some v) : (k, v) ∈ m := by
  induction m with
  | nil => simp [dget] at h
  | cons p ps ih =>
    by_cases hp : p.1 == k
    · simp only [dget, hp, if_true, Option.some.injEq] at h
      have hp1 : p.1 = k := by simpa using hp
      have : p = (k, v) := by
        cases p
        simp_all
      simp [this]
    · simp only [dget, hp, if_false] at h
      exact List.mem_cons_of_mem _ (ih h)

theorem mem_dset {m : List (String × α)} {k : String} {v : α}
    {q : String × α} (h : q ∈ dset m k v) : q = (k, v) ∨ q ∈ m := by
  induction m with
  | nil => simpa [dset] using h
  | cons p ps ih =>
    by_cases hp : p.1 == k
    · simp only [dset] at h
      rw [if_pos hp] at h
      rcases List.mem_cons.mp h with h | h
      · exact Or.inl h
      · exact Or.inr (List.mem_cons_of_mem _ h)
    · simp only [dset] at h
      rw [if_neg hp] at h
      rcases List.mem_cons.mp h with h | h
      · exact Or.inr (by simp [h])
      · rcases ih h with h2 | h2
        · exact Or.inl h2
        · exact Or.inr (List.mem_cons_of_mem _ h2)

theorem mem_ddel {m : List (String × α)} {k : String} {q : String × α}
    (h : q ∈ ddel m k) : q ∈ m := by
  induction m with
  | nil => simp [ddel] at h
  | cons p ps ih =>
    by_cases hp : p.1 == k
    · simp only [ddel] at h
      rw [if_pos hp] at h
      exact List.mem_cons_of_mem _ h
    · simp only [ddel] at h
      rw [if_neg hp] at h
      rcases List.mem_cons.mp h with h | h
      · simp [h]
      · exact List.mem_cons_of_mem _ (ih h)

theorem dget_unblock (m : List (String × Task)) (cid k : String) :
    dget (unblockDependentTasks m cid) k =
      (dget m k).map (fun t =>
        { t with blockedBy := t.blockedBy.map (fun l => l.erase cid) }) := by
  induction m with
  | nil => simp [dget, unblockDependentTasks]
  | cons p ps ih =>
    simp only [unblockDependentTasks] at ih ⊢
    by_cases hp : p.1 == k
    · simp [dget, hp]
    · simp [dget, hp, ih]

/-! ### Claim C2 — heartbeat watchdog -/

/-- C2 (code bug): evaluating the watchdog at a concrete state where agent
a1 (assigned task t1, locks held) has been silent for 40000 ms with
`heartbeatTimeout = 30000`: the task is correctly unassigned (pending,
no assignee, at the front of the queue) and every lock of a1 is released,
but the agent ends up `idle`, not `offline` — `checkAgentHeartbeats` sets
`offline` and then calls `unassignTask`, which resets the same agent to
`idle` because its `currentTask` matches. -/
theorem c2_watchdog_eval :
    (dget (checkAgentHeartbeats 40000 srvAssigned).agents "a1").map (·.status)
      = some AgentStatus.idle ∧
    (dget (checkAgentHeartbeats 40000 srvAssigned).tasks "t1").map (·.status)
      = some TaskStatus.pending ∧
    (dget (checkAgentHeartbeats 40000 srvAssigned).tasks "t1").map
      (·.assignedAgent) = some none ∧
    (checkAgentHeartbeats 40000 srvAssigned).taskQueue = ["t1"] ∧
    (checkAgentHeartbeats 40000 srvAssigned).lockManager.locks = [] := by
  decide

/-! ### Claim C3 — idempotence by message id -/

/-- C3 (code bug): handling the same TASK_COMPLETE envelope (same id m1)
twice is not idempotent: the completed-task history receives the task id a
second time and the agent's completed counter is incremented again, so the
state after two handlings differs from the state after one. No handler
consults the envelope id. -/
theorem c3_not_idempotent_eval :
    handleAgentMessage 50 (handleAgentMessage 50 srvAssigned "a1" msgComplete)
        "a1" msgComplete ≠
      handleAgentMessage 50 srvAssigned "a1" msgComplete ∧
    (handleAgentMessage 50 srvAssigned "a1" msgComplete).completedTasks =
      ["t1"] ∧
    (handleAgentMessage 50 (handleAgentMessage 50 srvAssigned "a1" msgComplete)
      "a1" msgComplete).completedTasks = ["t1", "t1"] ∧
    (dget (handleAgentMessage 50 srvAssigned "a1" msgComplete).agents "a1").map
      (·.completedTasks) = some 1 ∧
    (dget (handleAgentMessage 50
        (handleAgentMessage 50 srvAssigned "a1" msgComplete) "a1"
        msgComplete).agents "a1").map (·.completedTasks) = some 2 := by
  decide

/-! ### Claim C1 — terminal statuses and the completeTask guard -/

/-- C1 counterexample: terminal statuses are not immutable and completeTask
has no status guard. In `srvFailed4` task t1 is terminal `failed` (and still
carries its assignee); `completeTask` by the assignee turns it `completed`,
and `unassignTask` turns it `pending`. -/
theorem c1_counterexample :
    (dget srvFailed4.tasks "t1").map (·.status) = some TaskStatus.failed ∧
    (dget (completeTask 6 srvFailed4 "t1" "a1" "late").tasks "t1").map
      (·.status) = some TaskStatus.completed ∧
    (dget (unassignTask srvFailed4 "t1").tasks "t1").map (·.status) =
      some TaskStatus.pending := by
  decide

/-- C1 (amended): among the four operations only `assignTask` guards on the
current status — it leaves every non-`pending` (in particular terminal)
task untouched and returns null. `completeTask` checks only that the task
exists and that the calling agent equals `assignedAgent`: under that guard
it sets the status to `completed` whatever the current status was (so a
terminal task that still carries its assignee can be re-completed), and
otherwise it changes nothing. `failTask` and `unassignTask` likewise do not
check for terminal statuses. -/
theorem c1_guards :
    ∀ (now : Nat) (srv : Server) (tid aid r : String),
      (∀ task, dget srv.tasks tid = some task →
        task.status ≠ TaskStatus.pending →
        assignTask now srv tid aid = (none, srv)) ∧
      (dget srv.tasks tid = none → completeTask now srv tid aid r = srv) ∧
      (∀ task, dget srv.tasks tid = some task →
        task.assignedAgent ≠ some aid → completeTask now srv tid aid r = srv) ∧
      (∀ task, dget srv.tasks tid = some task →
        task.assignedAgent = some aid →
        (dget (completeTask now srv tid aid r).tasks tid).map (·.status) =
          some TaskStatus.completed) := by
  intro now srv tid aid r
  refine ⟨?_, ?_, ?_, ?_⟩
  · intro task hget hst
    cases hda : dget srv.agents aid with
    | none => simp [assignTask, hget, hda]
    | some agent => simp [assignTask, hget, hda, hst]
  · intro hget
    simp [completeTask, hget]
  · intro task hget hag
    simp [completeTask, hget, hag]
  · intro task hget hag
    have hnag : ¬ (task.assignedAgent ≠ some aid) := fun h => h hag
    simp only [completeTask, hget, if_neg hnag]
    rw [dget_unblock, dget_dset_self]
    rfl

/-- C1 witness: at the terminal-failed state, `completeTask` by a different
agent leaves the state unchanged, and `assignTask` refuses the
non-pending task without touching the state. -/
theorem c1_witness :
    completeTask 6 srvFailed4 "t1" "a2" "x" = srvFailed4 ∧
    assignTask 6 srvFailed4 "t1" "a1" = (none, srvFailed4) := by
  constructor
  · exact (c1_guards 6 srvFailed4 "t1" "a2" "x").2.2.1 taskFailed4
      (by decide) (by decide)
  · exact (c1_guards 6 srvFailed4 "t1" "a1" "x").1 taskFailed4
      (by decide) (by decide)

/-! ### Claim C5 — failTask retry semantics -/

/-- C5 counterexample: via repeated unassign/assign cycles `attempts` can
exceed `maxAttempts`; at `srvFailed4` the terminal `failed` task has
`attempts = 4` while `maxAttempts = 3` (refuting attempts == maxAttempts in
the terminal case), and `unassignTask` returns the terminal task to
`pending` (refuting that it never returns there). -/
theorem c5_counterexample :
    (dget srvFailed4.tasks "t1").map (·.status) = some TaskStatus.failed ∧
    (dget srvFailed4.tasks "t1").map (·.attempts) = some 4 ∧
    (dget srvFailed4.tasks "t1").map (·.maxAttempts) = some 3 ∧
    (4 : Nat) ≠ 3 ∧
    (dget (unassignTask srvFailed4 "t1").tasks "t1").map (·.status) =
      some TaskStatus.pending := by
  decide

/-- C5 (amended): for every `failTask(taskId, agentId, error)` on an
existing task with `assignedAgent = agentId`: when
`attempts < maxAttempts` the task afterwards is `pending` with no assignee,
its error recorded, its locks released and its id at the front of
`taskQueue`; otherwise (so `attempts ≥ maxAttempts`, where strict excess is
reachable through unassign/assign cycles) the task is terminal `failed`
with the error preserved, its locks released, and the queue unchanged.
`failTask` and `assignTask` do not revive a terminal `failed` task, but
`unassignTask` can return it to `pending`. -/
theorem c5_failTask_postcondition (now : Nat) (srv : Server)
    (tid aid err : String) (task : Task)
    (hget : dget srv.tasks tid = some task)
    (hag : task.assignedAgent = some aid) :
    (task.attempts < task.maxAttempts →
      (dget (failTask now srv tid aid err).tasks tid).map (·.status) =
        some TaskStatus.pending ∧
      (dget (failTask now srv tid aid err).tasks tid).map (·.assignedAgent) =
        some none ∧
      (dget (failTask now srv tid aid err).tasks tid).map (·.error) =
        some (some err) ∧
      (failTask now srv tid aid err).taskQueue = tid :: srv.taskQueue ∧
      (∀ l ∈ (failTask now srv tid aid err).lockManager.locks,
        l.taskId ≠ tid)) ∧
    (task.maxAttempts ≤ task.attempts →
      (dget (failTask now srv tid aid err).tasks tid).map (·.status) =
        some TaskStatus.failed ∧
      (dget (failTask now srv tid aid err).tasks tid).map (·.error) =
        some (some err) ∧
      (dget (failTask now srv tid aid err).tasks tid).map (·.attempts) =
        some task.attempts ∧
      (failTask now srv tid aid err).taskQueue = srv.taskQueue ∧
      (∀ l ∈ (failTask now srv tid aid err).lockManager.locks,
        l.taskId ≠ tid)) := by
  have hnag : ¬ (task.assignedAgent ≠ some aid) := fun h => h hag
  have hlocks : ∀ l ∈ (failTask now srv tid aid err).lockManager.locks,
      l.taskId ≠ tid := by
    intro l hl
    simp only [failTask, hget, if_neg hnag, releaseTaskLocks] at hl
    have := List.mem_filter.mp hl
    simpa using this.2
  constructor
  · intro hlt
    refine ⟨?_, ?_, ?_, ?_, hlocks⟩ <;>
      simp [failTask, hget, if_neg hnag, if_pos hlt, dget_dset_self]
  · intro hge
    have hnlt : ¬ (task.attempts < task.maxAttempts) := by omega
    refine ⟨?_, ?_, ?_, ?_, hlocks⟩ <;>
      simp [failTask, hget, if_neg hnag, if_neg hnlt, dget_dset_self]

/-- C5 witness: the retry branch at the concrete assigned state
(attempts 1 < maxAttempts 3). -/
theorem c5_witness :
    (dget (failTask 2 srvAssigned "t1" "a1" "boom").tasks "t1").map
      (·.status) = some TaskStatus.pending ∧
    (failTask 2 srvAssigned "t1" "a1" "boom").taskQueue =
      "t1" :: srvAssigned.taskQueue := by
  have h := (c5_failTask_postcondition 2 srvAssigned "t1" "a1" "boom"
    taskT1Assigned (by decide) (by decide)).1 (by decide)
  exact ⟨h.1, h.2.2.2.1⟩

/-! ### Claim C9 — refusal atomicity of assignTask -/

/-- C9 counterexample: a refused assignment is not fully atomic. In
`srvBlockedConflict`, t1 has `blockedBy = ["d"]` with d completed and its
target file is locked by a2; `assignTask` returns null (file conflict), yet
t1's `blockedBy` has been cleared to `[]` by the dependency step that ran
before the conflict check. -/
theorem c9_counterexample :
    (assignTask 5 srvBlockedConflict "t1" "a1").1 = none ∧
    (dget srvBlockedConflict.tasks "t1").map (·.blockedBy) =
      some (some ["d"]) ∧
    (dget (assignTask 5 srvBlockedConflict "t1" "a1").2.tasks "t1").map
      (·.blockedBy) = some (some []) := by
  decide

/-- C9 (amended): whenever `assignTask` returns null, the agents, the task
queue, the completed history and every task other than the requested one
are exactly as before; the requested task is unchanged too, except that on
the lock-conflict path `blockedBy` may have been cleared to `[]` (when its
entries had all completed), and the lock table is unchanged except that the
conflict check's sweep may have evicted expired locks. -/
theorem c9_refusal_atomic (now : Nat) (srv : Server) (tid aid : String)
    (h : (assignTask now srv tid aid).1 = none) :
    (assignTask now srv tid aid).2.agents = srv.agents ∧
    (assignTask now srv tid aid).2.taskQueue = srv.taskQueue ∧
    (assignTask now srv tid aid).2.completedTasks = srv.completedTasks ∧
    ((assignTask now srv tid aid).2.lockManager = srv.lockManager ∨
      (assignTask now srv tid aid).2.lockManager =
        { srv.lockManager with
            locks := cleanExpiredLocks now srv.lockManager.locks }) ∧
    (∀ tid2, tid2 ≠ tid →
      dget (assignTask now srv tid aid).2.tasks tid2 = dget srv.tasks tid2) ∧
    (dget srv.tasks tid = none →
      (assignTask now srv tid aid).2.tasks = srv.tasks) ∧
    (∀ task, dget srv.tasks tid = some task →
      dget (assignTask now srv tid aid).2.tasks tid = some task ∨
        dget (assignTask now srv tid aid).2.tasks tid =
          some { task with blockedBy := some [] }) := by
  cases hdt : dget srv.tasks tid with
  | none =>
    have hs : (assignTask now srv tid aid).2 = srv := by
      cases hda : dget srv.agents aid <;> simp [assignTask, hdt, hda]
    rw [hs]
    exact ⟨rfl, rfl, rfl, Or.inl rfl, fun _ _ => rfl, fun _ => rfl,
      fun task htask => by simp at htask⟩
  | some task =>
    cases hda : dget srv.agents aid with
    | none =>
      have hs : (assignTask now srv tid aid).2 = srv := by
        simp [assignTask, hdt, hda]
      rw [hs]
      exact ⟨rfl, rfl, rfl, Or.inl rfl, fun _ _ => rfl, fun _ => rfl,
        fun task2 htask => Or.inl (htask ▸ hdt)⟩
    | some agent =>
      by_cases hst : task.status ≠ TaskStatus.pending
      · have hs : (assignTask now srv tid aid).2 = srv := by
          simp [assignTask, hdt, hda, hst]
        rw [hs]
        exact ⟨rfl, rfl, rfl, Or.inl rfl, fun _ _ => rfl, fun _ => rfl,
          fun task2 htask => Or.inl (htask ▸ hdt)⟩
      · by_cases hag : agent.status ≠ AgentStatus.idle
        · have hs : (assignTask now srv tid aid).2 = srv := by
            simp [assignTask, hdt, hda, hst, hag]
          rw [hs]
          exact ⟨rfl, rfl, rfl, Or.inl rfl, fun _ _ => rfl, fun _ => rfl,
            fun task2 htask => Or.inl (htask ▸ hdt)⟩
        · by_cases hbl : (task.blockedBy.getD []).length > 0
          · by_cases hsb : (blockerFilter srv.tasks
                (task.blockedBy.getD [])).length > 0
            · -- still blocked: refused with no mutation
              have hs : (assignTask now srv tid aid).2 = srv := by
                simp [assignTask, hdt, hda, hst, hag, hbl, hsb]
              rw [hs]
              exact ⟨rfl, rfl, rfl, Or.inl rfl, fun _ _ => rfl, fun _ => rfl,
                fun task2 htask => Or.inl (htask ▸ hdt)⟩
            · -- every blocker completed: blockedBy is cleared in place
              have hsb0 : (blockerFilter srv.tasks
                  (task.blockedBy.getD [])).length = 0 := by omega
              cases htf : task.targetFiles with
              | none =>
                exfalso
                simp [assignTask, hdt, hda, hst, hag, hbl, hsb0, htf,
                  assignBody] at h
              | some files =>
                by_cases hcf : (conflictScan srv.lockManager.projectPath
                    aid files (cleanExpiredLocks now
                      srv.lockManager.locks)).length > 0
                · have hs : (assignTask now srv tid aid).2 =
                      { srv with
                          tasks := dset srv.tasks tid
                            { task with blockedBy := some [] }
                          lockManager :=
                            { srv.lockManager with
                                locks := cleanExpiredLocks now
                                  srv.lockManager.locks } } := by
                    simp [assignTask, hdt, hda, hst, hag, hbl, hsb0, htf,
                      hcf, checkConflicts]
                  rw [hs]
                  refine ⟨rfl, rfl, rfl, Or.inr rfl, ?_, ?_, ?_⟩
                  · intro tid2 hne
                    exact dget_dset_ne _ _ _ _ hne
                  · intro hnone
                    simp at hnone
                  · intro task2 htask
                    cases htask
                    exact Or.inr (dget_dset_self _ _ _)
                · exfalso
                  simp [assignTask, hdt, hda, hst, hag, hbl, hsb0, htf, hcf,
                    checkConflicts, assignBody] at h
          · -- blockedBy already empty: no task mutation on refusal
            have hbl0 : (task.blockedBy.getD []).length = 0 := by omega
            cases htf : task.targetFiles with
            | none =>
              exfalso
              simp [assignTask, hdt, hda, hst, hag, hbl0, htf,
                assignBody] at h
            | some files =>
              by_cases hcf : (conflictScan srv.lockManager.projectPath
                  aid files (cleanExpiredLocks now
                    srv.lockManager.locks)).length > 0
              · have hs : (assignTask now srv tid aid).2 =
                    { srv with
                        lockManager :=
                          { srv.lockManager with
                              locks := cleanExpiredLocks now
                                srv.lockManager.locks } } := by
                  simp [assignTask, hdt, hda, hst, hag, hbl0, htf, hcf,
                    checkConflicts]
                rw [hs]
                exact ⟨rfl, rfl, rfl, Or.inr rfl, fun _ _ => rfl,
                  fun _ => rfl, fun task2 htask => Or.inl (htask ▸ hdt)⟩
              · exfalso
                simp [assignTask, hdt, hda, hst, hag, hbl0, htf, hcf,
                  checkConflicts, assignBody] at h

/-- C9 witness: a concrete refusal — the task in `srvAssigned` is already
assigned (not pending), so a second assignment attempt returns null and
changes nothing. -/
theorem c9_witness :
    (assignTask 2 srvAssigned "t1" "a1").2.agents = srvAssigned.agents ∧
    (assignTask 2 srvAssigned "t1" "a1").2.taskQueue =
      srvAssigned.taskQueue := by
  have h := c9_refusal_atomic 2 srvAssigned "t1" "a1" (by decide)
  exact ⟨h.1, h.2.1⟩

/-! ### Claim C4 — dependency completion invariant -/

theorem bbEmpty_getD_zero {t : Task} (h : (t.blockedBy.getD []).length = 0) :
    bbEmpty t := by
  cases hb : t.blockedBy with
  | none => exact Or.inl hb
  | some l =>
    rw [hb] at h
    simp only [Option.getD_some] at h
    rw [List.length_eq_zero] at h
    exact Or.inr (by rw [hb, h])

theorem TaskInv_of_unassigned {t : Task} (h1 : t.assignedAgent = none)
    (h2 : t.status ≠ TaskStatus.completed) : TaskInv t :=
  ⟨fun hne => absurd h1 hne, fun hc => absurd hc h2⟩

theorem TaskInv_erase {t : Task} (h : TaskInv t) (cid : String) :
    TaskInv { t with blockedBy := t.blockedBy.map (fun l => l.erase cid) } := by
  have hbb : bbEmpty t →
      bbEmpty { t with blockedBy := t.blockedBy.map (fun l => l.erase cid) } := by
    intro hb
    rcases hb with hb | hb
    · exact Or.inl (by simp [hb])
    · exact Or.inr (by simp [hb])
  exact ⟨fun hne => hbb (h.1 hne), fun hc => hbb (h.2 hc)⟩

theorem inv_registerAgent (now : Nat) (s : Server) (aid : String)
    (nm wd : Option String) (caps : Option (List String)) (h : ServerInv s) :
    ServerInv (registerAgent now s aid nm wd caps) :=
  fun kt hkt => h kt hkt

theorem inv_updateHeartbeat (now : Nat) (s : Server) (aid : String)
    (st : Option AgentStatus) (h : ServerInv s) :
    ServerInv (updateHeartbeat now s aid st) := by
  intro kt hkt
  apply h
  cases hda : dget s.agents aid with
  | none => simpa [updateHeartbeat, hda] using hkt
  | some agent => simpa [updateHeartbeat, hda] using hkt

theorem inv_createTask (now : Nat) (s : Server) (tid : String)
    (opts : CreateTaskOptions) (h : ServerInv s) :
    ServerInv ((createTask now s tid opts).1) := by
  intro kt hkt
  simp only [createTask] at hkt
  rcases mem_dset hkt with hk | hk
  · subst hk
    cases hdo : opts.dependsOn with
    | none =>
      simp only [hdo]
      exact TaskInv_of_unassigned rfl (by simp)
    | some deps =>
      simp only [hdo]
      by_cases hbk : (blockerFilter s.tasks deps).length > 0
      · simp only [hbk, if_true]
        exact TaskInv_of_unassigned rfl (by simp)
      · simp only [hbk, if_false]
        exact TaskInv_of_unassigned rfl (by simp)
  · exact h kt hk

theorem inv_startTask (now : Nat) (s : Server) (tid aid : String)
    (h : ServerInv s) : ServerInv (startTask now s tid aid) := by
  intro kt hkt
  cases hdt : dget s.tasks tid with
  | none =>
    simp only [startTask, hdt] at hkt
    exact h kt hkt
  | some task =>
    by_cases hag : task.assignedAgent ≠ some aid
    · simp only [startTask, hdt, if_pos hag] at hkt
      exact h kt hkt
    · simp only [startTask, hdt, if_neg hag] at hkt
      rcases mem_dset hkt with hk | hk
      · subst hk
        have hold := h (tid, task) (dget_some_mem hdt)
        have hbb : bbEmpty task := by
          apply hold.1
          intro hc
          rw [hc] at hag
          exact hag (by simp)
        refine ⟨fun _ => ?_, fun hc => ?_⟩
        · rcases hbb with hb | hb
          · exact Or.inl (by simpa using hb)
          · exact Or.inr (by simpa using hb)
        · simp at hc
      · exact h kt hk

theorem inv_completeTask (now : Nat) (s : Server) (tid aid r : String)
    (h : ServerInv s) : ServerInv (completeTask now s tid aid r) := by
  intro kt hkt
  cases hdt : dget s.tasks tid with
  | none =>
    simp only [completeTask, hdt] at hkt
    exact h kt hkt
  | some task =>
    by_cases hag : task.assignedAgent ≠ some aid
    · simp only [completeTask, hdt, if_pos hag] at hkt
      exact h kt hkt
    · simp only [completeTask, hdt, if_neg hag, unblockDependentTasks] at hkt
      rcases List.mem_map.mp hkt with ⟨q, hq, hqkt⟩
      subst hqkt
      rcases mem_dset hq with hk | hk
      · -- the completed task itself
        rw [hk]
        have hold := h (tid, task) (dget_some_mem hdt)
        have hagent : task.assignedAgent = some aid := by
          by_contra hc
          exact hag hc
        have hbb : bbEmpty task := by
          apply hold.1
          rw [hagent]
          simp
        have hbb2 : bbEmpty task →
            TaskInv { task with
              status := TaskStatus.completed
              completedAt := some now
              result := some r
              actualMinutes := task.startedAt.map
                (fun st => roundMinutes (now - st)) } := by
          intro hb
          refine ⟨fun _ => ?_, fun _ => ?_⟩ <;>
            (rcases hb with hb | hb
             · exact Or.inl (by simpa using hb)
             · exact Or.inr (by simpa using hb))
        exact TaskInv_erase (hbb2 hbb) tid
      · exact TaskInv_erase (h q hk) tid

theorem inv_failTask (now : Nat) (s : Server) (tid aid e : String)
    (h : ServerInv s) : ServerInv (failTask now s tid aid e) := by
  intro kt hkt
  cases hdt : dget s.tasks tid with
  | none =>
    simp only [failTask, hdt] at hkt
    exact h kt hkt
  | some task =>
    by_cases hag : task.assignedAgent ≠ some aid
    · simp only [failTask, hdt, if_pos hag] at hkt
      exact h kt hkt
    · simp only [failTask, hdt, if_neg hag] at hkt
      rcases mem_dset hkt with hk | hk
      · subst hk
        by_cases hlt : task.attempts < task.maxAttempts
        · simp only [if_pos hlt]
          exact TaskInv_of_unassigned rfl (by simp)
        · simp only [if_neg hlt]
          have hold := h (tid, task) (dget_some_mem hdt)
          have hagent : task.assignedAgent = some aid := by
            by_contra hc
            exact hag hc
          have hbb : bbEmpty task := by
            apply hold.1
            rw [hagent]
            simp
          refine ⟨fun _ => ?_, fun hc => ?_⟩
          · rcases hbb with hb | hb
            · exact Or.inl (by simpa using hb)
            · exact Or.inr (by simpa using hb)
          · simp at hc
      · exact h kt hk

theorem inv_unassignTask (s : Server) (tid : String) (h : ServerInv s) :
    ServerInv (unassignTask s tid) := by
  intro kt hkt
  cases hdt : dget s.tasks tid with
  | none =>
    simp only [unassignTask, hdt] at hkt
    exact h kt hkt
  | some task =>
    have htasks : (unassignTask s tid).tasks =
        dset s.tasks tid
          { task with
              status := TaskStatus.pending
              assignedAgent := none
              assignedAt := none } := by
      simp only [unassignTask, hdt]
      cases hagid : task.assignedAgent with
      | none => rfl
      | some aid =>
        cases hda : dget s.agents aid with
        | none => simp [hda]
        | some agent =>
          by_cases hcur : agent.currentTask == some tid
          · simp [hda, hcur]
          · simp [hda, hcur]
    rw [htasks] at hkt
    rcases mem_dset hkt with hk | hk
    · subst hk
      exact TaskInv_of_unassigned rfl (by simp)
    · exact h kt hk

theorem inv_unregisterAgent (s : Server) (aid : String) (h : ServerInv s) :
    ServerInv (unregisterAgent s aid) := by
  intro kt hkt
  cases hda : dget s.agents aid with
  | none =>
    simp only [unregisterAgent, hda] at hkt
    exact h kt hkt
  | some agent =>
    simp only [unregisterAgent, hda] at hkt
    cases hcur : agent.currentTask with
    | none =>
      simp only [hcur] at hkt
      exact h kt hkt
    | some tid =>
      simp only [hcur] at hkt
      exact inv_unassignTask
        { s with lockManager := releaseAllLocks s.lockManager aid } tid
        (fun q hq => h q hq) kt hkt

theorem inv_assignBody (now : Nat) (s : Server) (tid aid : String)
    (task : Task) (agent : Agent) (hbb : bbEmpty task) (h : ServerInv s) :
    ServerInv (assignBody now s tid aid task agent).2 := by
  intro kt hkt
  simp only [assignBody] at hkt
  rcases mem_dset hkt with hk | hk
  · subst hk
    refine ⟨fun _ => ?_, fun hc => ?_⟩
    · rcases hbb with hb | hb
      · exact Or.inl (by simpa using hb)
      · exact Or.inr (by simpa using hb)
    · simp at hc
  · exact h kt hk

theorem inv_assignTask (now : Nat) (s : Server) (tid aid : String)
    (h : ServerInv s) : ServerInv ((assignTask now s tid aid).2) := by
  cases hdt : dget s.tasks tid with
  | none =>
    have hs : (assignTask now s tid aid).2 = s := by
      cases hda : dget s.agents aid <;> simp [assignTask, hdt, hda]
    rw [hs]
    exact h
  | some task =>
    cases hda : dget s.agents aid with
    | none =>
      have hs : (assignTask now s tid aid).2 = s := by
        simp [assignTask, hdt, hda]
      rw [hs]
      exact h
    | some agent =>
      by_cases hst : task.status ≠ TaskStatus.pending
      · have hs : (assignTask now s tid aid).2 = s := by
          simp [assignTask, hdt, hda, hst]
        rw [hs]
        exact h
      · by_cases hag : agent.status ≠ AgentStatus.idle
        · have hs : (assignTask now s tid aid).2 = s := by
            simp [assignTask, hdt, hda, hst, hag]
          rw [hs]
          exact h
        · have hinv1 : ServerInv
              { s with
                  tasks := dset s.tasks tid
                    { task with blockedBy := some [] } } := by
            intro kt hkt
            rcases mem_dset hkt with hk | hk
            · subst hk
              exact ⟨fun _ => Or.inr rfl, fun _ => Or.inr rfl⟩
            · exact h kt hk
          by_cases hbl : (task.blockedBy.getD []).length > 0
          · by_cases hsb : (blockerFilter s.tasks
                (task.blockedBy.getD [])).length > 0
            · have hs : (assignTask now s tid aid).2 = s := by
                simp [assignTask, hdt, hda, hst, hag, hbl, hsb]
              rw [hs]
              exact h
            · have hsb0 : (blockerFilter s.tasks
                  (task.blockedBy.getD [])).length = 0 := by omega
              cases htf : task.targetFiles with
              | none =>
                have hs : (assignTask now s tid aid).2 =
                    (assignBody now
                      { s with
                          tasks := dset s.tasks tid
                            { task with blockedBy := some [] } }
                      tid aid { task with blockedBy := some [] } agent).2 := by
                  simp [assignTask, hdt, hda, hst, hag, hbl, hsb0, htf]
                rw [hs]
                exact inv_assignBody now _ tid aid _ agent (Or.inr rfl) hinv1
              | some files =>
                by_cases hcf : (conflictScan s.lockManager.projectPath
                    aid files (cleanExpiredLocks now
                      s.lockManager.locks)).length > 0
                · have hs : (assignTask now s tid aid).2 =
                      { s with
                          tasks := dset s.tasks tid
                            { task with blockedBy := some [] }
                          lockManager :=
                            { s.lockManager with
                                locks := cleanExpiredLocks now
                                  s.lockManager.locks } } := by
                    simp [assignTask, hdt, hda, hst, hag, hbl, hsb0, htf,
                      hcf, checkConflicts]
                  rw [hs]
                  intro kt hkt
                  rcases mem_dset hkt with hk | hk
                  · subst hk
                    exact ⟨fun _ => Or.inr rfl, fun _ => Or.inr rfl⟩
                  · exact h kt hk
                · have hs : (assignTask now s tid aid).2 =
                      (assignBody now
                        { s with
                            tasks := dset s.tasks tid
                              { task with blockedBy := some [] }
                            lockManager :=
                              { s.lockManager with
                                  locks := cleanExpiredLocks now
                                    s.lockManager.locks } }
                        tid aid { task with blockedBy := some [] }
                        agent).2 := by
                    simp [assignTask, hdt, hda, hst, hag, hbl, hsb0, htf,
                      hcf, checkConflicts]
                  rw [hs]
                  refine inv_assignBody now _ tid aid _ agent (Or.inr rfl) ?_
                  intro kt hkt
                  rcases mem_dset hkt with hk | hk
                  · subst hk
                    exact ⟨fun _ => Or.inr rfl, fun _ => Or.inr rfl⟩
                  · exact h kt hk
          · have hbl0 : (task.blockedBy.getD []).length = 0 := by omega
            have hbbt : bbEmpty task := bbEmpty_getD_zero hbl0
            cases htf : task.targetFiles with
            | none =>
              have hs : (assignTask now s tid aid).2 =
                  (assignBody now s tid aid task agent).2 := by
                simp [assignTask, hdt, hda, hst, hag, hbl0, htf]
              rw [hs]
              exact inv_assignBody now s tid aid task agent hbbt h
            | some files =>
              by_cases hcf : (conflictScan s.lockManager.projectPath
                  aid files (cleanExpiredLocks now
                    s.lockManager.locks)).length > 0
              · have hs : (assignTask now s tid aid).2 =
                    { s with
                        lockManager :=
                          { s.lockManager with
                              locks := cleanExpiredLocks now
                                s.lockManager.locks } } := by
                  simp [assignTask, hdt, hda, hst, hag, hbl0, htf, hcf,
                    checkConflicts]
                rw [hs]
                exact fun kt hkt => h kt hkt
              · have hs : (assignTask now s tid aid).2 =
                    (assignBody now
                      { s with
                          lockManager :=
                            { s.lockManager with
                                locks := cleanExpiredLocks now
                                  s.lockManager.locks } }
                      tid aid task agent).2 := by
                  simp [assignTask, hdt, hda, hst, hag, hbl0, htf, hcf,
                    checkConflicts]
                rw [hs]
                exact inv_assignBody now _ tid aid task agent hbbt
                  (fun kt hkt => h kt hkt)

/-- Every reachable coordinator state satisfies the task invariant. -/
theorem serverInv_of_reach {s : Server} (h : Reach s) : ServerInv s := by
  induction h with
  | init pp dt cfg => intro kt hkt; simp at hkt
  | register s now aid nm wd caps _ ih =>
    exact inv_registerAgent now s aid nm wd caps ih
  | unregister s aid _ ih => exact inv_unregisterAgent s aid ih
  | heartbeat s now aid st _ ih => exact inv_updateHeartbeat now s aid st ih
  | create s now tid opts _ ih => exact inv_createTask now s tid opts ih
  | assign s now tid aid _ ih => exact inv_assignTask now s tid aid ih
  | start s now tid aid _ ih => exact inv_startTask now s tid aid ih
  | complete s now tid aid r _ ih => exact inv_completeTask now s tid aid r ih
  | fail s now tid aid e _ ih => exact inv_failTask now s tid aid e ih
  | unassign s tid _ ih => exact inv_unassignTask s tid ih

/-- C4 counterexample: a dependency id occurring in `dependsOn` that refers
to no task at all is silently treated as satisfied (`dep && dep.status !==
'completed'` requires the dependency to exist in order to block), so the
task reaches `completed` while its `dependsOn` entry ghost names no
existing task — refuting the claim that every id in a completed task's
`dependsOn` refers to an existing completed task. -/
theorem c4_counterexample :
    (dget srvGhostDone.tasks "t1").map (·.status) =
      some TaskStatus.completed ∧
    (dget srvGhostDone.tasks "t1").map (·.dependsOn) =
      some (some ["ghost"]) ∧
    dget srvGhostDone.tasks "ghost" = none := by
  decide

/-- C4 (amended): in every state reachable through the public coordinator
operations, every task whose status is `completed` has no remaining
blockers: its `blockedBy` field is absent or empty. The code enforces
dependency gating only through `blockedBy` — computed at creation from the
`dependsOn` ids that refer to an existing non-completed task, and
re-checked at assignment — so a completed task's `dependsOn` itself may
contain ids of tasks that do not exist (or that have left the `completed`
status again). -/
theorem c4_completed_no_blockers (s : Server) (hreach : Reach s) :
    ∀ kt ∈ s.tasks, kt.2.status = TaskStatus.completed →
      kt.2.blockedBy = none ∨ kt.2.blockedBy = some [] :=
  fun kt hkt hc => (serverInv_of_reach hreach kt hkt).2 hc

/-- C4 witness: the amended invariant applied to the concrete reachable
state `srvGhostDone` and its completed task t1. -/
theorem c4_witness :
    taskGhostDone.blockedBy = none ∨ taskGhostDone.blockedBy = some [] :=
  c4_completed_no_blockers srvGhostDone
    (Reach.complete _ 2 "t1" "a1" "ok"
      (Reach.assign _ 1 "t1" "a1"
        (Reach.create _ 0 "t1" { title := "X", dependsOn := some ["ghost"] }
          (Reach.register _ 0 "a1" none none none
            (Reach.init "proj" 300000 cfgDefault)))))
    ("t1", taskGhostDone) (by decide) (by decide)

end AgentCLI
